import Mathlib

/-!
Shallow embedding of the PR reviewer-assignment service
(`mishasvintus/pr_reviewer_assignment_service`).

The relational store (tables `teams`, `users`, `pull_requests`,
`pr_reviewers`) is modelled as an explicit `DBState`.  Repository
functions (`internal/repository/...`) become pure state transformers
returning `Except RepoErr`; service operations
(`internal/service/...`) become functions `DBState → Except ServiceErr α × DBState`
where the second component is the database state after the call
(transactions roll back to the pre-transaction state on error, exactly
as the Go code does via `defer tx.Rollback()`).

The `crypto/rand` entropy source consumed by `ReviewerAssigner` is
modelled as an explicit stream `List Nat` of raw draws; `secureRandInt max`
applied to a draw `d` is `d % max`.  Exhaustion of the stream models the
(impossible-in-practice) failure/non-termination of rejection sampling and
surfaces as `Option.none`, matching the `error` return of `secureRandInt`.

SQL timestamps (`now()`) are modelled as `Nat` parameters.
-/

namespace PRReview

/-- `domain.PRStatus`: status of a pull request (`OPEN` or `MERGED`). -/
inductive PRStatus where
  | opened
  | merged
deriving DecidableEq, Repr

/-- `domain.User`: a row of the `users` table. -/
structure User where
  userID : String
  username : String
  teamName : String
  isActive : Bool
deriving DecidableEq, Repr

/-- `domain.TeamMember`: a member record in a `CreateTeam` request. -/
structure TeamMember where
  userID : String
  username : String
  isActive : Bool
deriving DecidableEq, Repr

/-- A row of the `pull_requests` table. -/
structure PRRow where
  pullRequestID : String
  pullRequestName : String
  authorID : String
  teamName : String
  status : PRStatus
  createdAt : Nat
  mergedAt : Option Nat
deriving DecidableEq, Repr

/-- `domain.PullRequest`: a pull request as assembled by `pr.Get`
(row fields plus the reviewer list from `pr_reviewers`). -/
structure PullRequest where
  pullRequestID : String
  pullRequestName : String
  authorID : String
  teamName : String
  status : PRStatus
  assignedReviewersIDs : List String
  createdAt : Nat
  mergedAt : Option Nat
deriving DecidableEq, Repr

/-- The relational store: tables `teams`, `users`, `pull_requests` and the
join table `pr_reviewers` (pairs `(pull_request_id, user_id)`). -/
structure DBState where
  teams : List String
  users : List User
  prs : List PRRow
  prReviewers : List (String × String)
deriving DecidableEq, Repr

/-- Errors surfaced by the repository layer: constraint-violation
classification (`repository.IsUniqueViolation` / `IsForeignKeyViolation`),
`pr.ErrReviewerNotAssigned`, and `sql.ErrNoRows` from writes that
affected zero rows. -/
inductive RepoErr where
  | uniqueViolation
  | fkViolation
  | notAssigned
  | noRows
deriving DecidableEq, Repr

/-- The typed error surface of `internal/service/errors.go` (plus
`internal` for wrapped infrastructure errors). -/
inductive ServiceErr where
  | teamExists
  | teamNotFound
  | prAuthorNotFound
  | prNotFound
  | prExists
  | prMerged
  | reviewerNotAssigned
  | noCandidate
  | inactiveReviewer
  | internal
deriving DecidableEq, Repr

/-- `user.Get`: `SELECT ... FROM users WHERE user_id = $1`. -/
def userGet (s : DBState) (userID : String) : Option User :=
  s.users.find? (fun u => u.userID == userID)

/-- `user.GetActiveTeammates`: active users sharing the team of `userID`,
excluding `userID` itself (self-join on `team_name`). -/
def getActiveTeammates (s : DBState) (userID : String) : List User :=
  match userGet s userID with
  | none => []
  | some u1 =>
      s.users.filter (fun u2 =>
        u2.teamName == u1.teamName && u2.userID != userID && u2.isActive)

/-- `user.GetActiveByTeam`: `SELECT ... FROM users WHERE team_name = $1 AND is_active = true`. -/
def getActiveByTeam (s : DBState) (teamName : String) : List User :=
  s.users.filter (fun u => u.teamName == teamName && u.isActive)

/-- `user.Create`: insert into `users` (primary key `user_id`,
foreign key `team_name → teams`). -/
def userCreate (s : DBState) (u : User) : Except RepoErr DBState :=
  if s.users.any (fun v => v.userID == u.userID) then .error .uniqueViolation
  else if s.teams.any (fun t => t == u.teamName) then
    .ok { s with users := s.users ++ [u] }
  else .error .fkViolation

/-- `user.Update`: `UPDATE users SET username, team_name, is_active WHERE user_id = $4`;
returns `sql.ErrNoRows` when no row was affected. -/
def userUpdate (s : DBState) (u : User) : Except RepoErr DBState :=
  if s.users.any (fun v => v.userID == u.userID) then
    if s.teams.any (fun t => t == u.teamName) then
      .ok { s with users := s.users.map (fun v =>
        if v.userID == u.userID then
          { v with username := u.username, teamName := u.teamName, isActive := u.isActive }
        else v) }
    else .error .fkViolation
  else .error .noRows

/-- `team.Exists`: `SELECT EXISTS(SELECT 1 FROM teams WHERE team_name = $1)`. -/
def teamExistsQ (s : DBState) (teamName : String) : Bool :=
  s.teams.any (fun t => t == teamName)

/-- `team.Create`: `INSERT INTO teams (team_name) VALUES ($1)`. -/
def teamCreate (s : DBState) (teamName : String) : Except RepoErr DBState :=
  if teamExistsQ s teamName then .error .uniqueViolation
  else .ok { s with teams := s.teams ++ [teamName] }

/-- Success condition of `team.Get`: it returns `sql.ErrNoRows` exactly when
the team has no member rows *and* the team row does not exist. -/
def teamGetOk (s : DBState) (teamName : String) : Bool :=
  s.users.any (fun u => u.teamName == teamName) || teamExistsQ s teamName

/-- Modelled from the spec: `team.DeactivateAll` is invoked by
`TeamService.DeactivateTeam` but its definition is not among the provided
source files.  Per the spec ("set `is_active = false` for every user on the
team"), it updates every `users` row whose `team_name` matches. -/
def deactivateAll (s : DBState) (teamName : String) : DBState :=
  { s with users := s.users.map (fun u =>
      if u.teamName == teamName then { u with isActive := false } else u) }

/-- The `pull_requests` row with the given id, if any. -/
def prRowGet (s : DBState) (prID : String) : Option PRRow :=
  s.prs.find? (fun r => r.pullRequestID == prID)

/-- The reviewer ids attached to `prID` in the `pr_reviewers` join table. -/
def reviewersOf (s : DBState) (prID : String) : List String :=
  (s.prReviewers.filter (fun rv => rv.1 == prID)).map Prod.snd

/-- `pr.Get`: the PR row joined with its reviewer list. -/
def prGet (s : DBState) (prID : String) : Option PullRequest :=
  (prRowGet s prID).map (fun r =>
    { pullRequestID := r.pullRequestID
      pullRequestName := r.pullRequestName
      authorID := r.authorID
      teamName := r.teamName
      status := r.status
      assignedReviewersIDs := reviewersOf s prID
      createdAt := r.createdAt
      mergedAt := r.mergedAt })

/-- `pr.GetStatus`: `SELECT status FROM pull_requests WHERE pull_request_id = $1`. -/
def prGetStatus (s : DBState) (prID : String) : Option PRStatus :=
  (prRowGet s prID).map PRRow.status

/-- `pr.Create`: insert into `pull_requests` (primary key `pull_request_id`,
foreign keys `author_id → users`, `team_name → teams`). -/
def prCreate (s : DBState) (row : PRRow) : Except RepoErr DBState :=
  if s.prs.any (fun r => r.pullRequestID == row.pullRequestID) then
    .error .uniqueViolation
  else if s.users.any (fun u => u.userID == row.authorID) &&
          s.teams.any (fun t => t == row.teamName) then
    .ok { s with prs := s.prs ++ [row] }
  else .error .fkViolation

/-- `pr.InsertReviewer`: insert into `pr_reviewers` (unique on
`(pull_request_id, user_id)`, foreign keys to `pull_requests` and `users`). -/
def insertReviewer (s : DBState) (prID userID : String) : Except RepoErr DBState :=
  if s.prReviewers.any (fun rv => rv.1 == prID && rv.2 == userID) then
    .error .uniqueViolation
  else if s.prs.any (fun r => r.pullRequestID == prID) &&
          s.users.any (fun u => u.userID == userID) then
    .ok { s with prReviewers := s.prReviewers ++ [(prID, userID)] }
  else .error .fkViolation

/-- `pr.DeleteReviewer`: `DELETE FROM pr_reviewers WHERE pull_request_id = $1 AND user_id = $2`. -/
def deleteReviewer (s : DBState) (prID userID : String) : DBState :=
  { s with prReviewers :=
      s.prReviewers.filter (fun rv => !(rv.1 == prID && rv.2 == userID)) }

/-- `pr.UpdateStatusToMerged`: conditional update
`SET status = MERGED, merged_at = now WHERE pull_request_id = $1 AND status = OPEN`;
`sql.ErrNoRows` when zero rows were affected. -/
def updateStatusToMerged (s : DBState) (prID : String) (now : Nat) :
    Except RepoErr DBState :=
  if s.prs.any (fun r => r.pullRequestID == prID && r.status == PRStatus.opened) then
    .ok { s with prs := s.prs.map (fun r =>
      if r.pullRequestID == prID && r.status == PRStatus.opened then
        { r with status := .merged, mergedAt := some now }
      else r) }
  else .error .noRows

/-- `pr.ReplaceReviewer`: the single CTE statement that deletes
`(prID, oldR)` and inserts `(prID, newR)` for each deleted row.  The
affected-row count is the number of inserted rows; zero means `oldR` was
not assigned (`pr.ErrReviewerNotAssigned`).  Constraint checks on the
insert run against the table after the deletion. -/
def replaceReviewer (s : DBState) (prID oldR newR : String) :
    Except RepoErr DBState :=
  if s.prReviewers.any (fun rv => rv.1 == prID && rv.2 == oldR) then
    if (s.prReviewers.filter (fun rv => !(rv.1 == prID && rv.2 == oldR))).any
        (fun rv => rv.1 == prID && rv.2 == newR) then
      .error .uniqueViolation
    else if s.prs.any (fun r => r.pullRequestID == prID) &&
            s.users.any (fun u => u.userID == newR) then
      .ok { s with prReviewers :=
        (s.prReviewers.filter (fun rv => !(rv.1 == prID && rv.2 == oldR)))
          ++ [(prID, newR)] }
    else .error .fkViolation
  else .error .notAssigned

/-- `pr.GetOpenPRsWithReviewersFromTeam`: for every OPEN pull request, the
list of its reviewers whose `users.team_name` equals `teamName`; PRs with
no such reviewer are omitted.  (The Go version groups the joined rows into
a map `prID → []reviewerID`; the map is modelled as an association list in
`pull_requests`-table order.) -/
def getOpenPRsWithReviewersFromTeam (s : DBState) (teamName : String) :
    List (String × List String) :=
  s.prs.filterMap (fun row =>
    if row.status = PRStatus.opened then
      let revs := (reviewersOf s row.pullRequestID).filter (fun uid =>
        match userGet s uid with
        | some u => u.teamName == teamName
        | none => false)
      if revs.isEmpty then none else some (row.pullRequestID, revs)
    else none)

/-- A placeholder user, used only to give `List.getD` a default; rejection
sampling always indexes within bounds. -/
def dummyUser : User :=
  { userID := "", username := "", teamName := "", isActive := false }

/-- The rejection-sampling loop of `ReviewerAssigner.SelectReviewers`
(`for len(reviewers) < 2`): draw an index, keep it if not already chosen.
`none` models exhaustion of the entropy stream. -/
def selectTwoLoop (teammates : List User) :
    List Nat → List Nat → List String → Option (List String × List Nat)
  | rand, selected, reviewers =>
    if 2 ≤ reviewers.length then some (reviewers, rand)
    else
      match rand with
      | [] => none
      | d :: rest =>
        if (d % teammates.length) ∈ selected then
          selectTwoLoop teammates rest selected reviewers
        else
          selectTwoLoop teammates rest ((d % teammates.length) :: selected)
            (reviewers ++ [(teammates.getD (d % teammates.length) dummyUser).userID])

/-- `ReviewerAssigner.SelectReviewers`: empty pool ⇒ empty list; pool of at
most 2 ⇒ everyone; otherwise 2 distinct members via rejection sampling. -/
def SelectReviewers (teammates : List User) (rand : List Nat) :
    Option (List String × List Nat) :=
  if teammates.length = 0 then some ([], rand)
  else if teammates.length ≤ 2 then some (teammates.map User.userID, rand)
  else selectTwoLoop teammates rand [] []

/-- `ReviewerAssigner.SelectReassignReviewers`: filter out the author and
already-assigned reviewers, fail when nothing remains, else delegate to
`SelectReviewers`. -/
def SelectReassignReviewers (teammates : List User) (authorID : String)
    (assignedReviewers : List String) (rand : List Nat) :
    Option (List String × List Nat) :=
  let candidates := teammates.filter (fun u =>
    !(u.userID == authorID) && !(assignedReviewers.contains u.userID))
  if candidates.length = 0 then none
  else SelectReviewers candidates rand

/-- `maxReviewers` constant of `PRService`. -/
def maxReviewers : Nat := 2

/-- The reviewer-insertion loop of `PRService.CreatePR`
(foreign-key violations map to `ErrPRAuthorNotFound`). -/
def insertReviewersLoop (prID : String) :
    DBState → List String → Except ServiceErr DBState
  | s, [] => .ok s
  | s, r :: rs =>
    match insertReviewer s prID r with
    | .error .fkViolation => .error .prAuthorNotFound
    | .error _ => .error .internal
    | .ok s1 => insertReviewersLoop prID s1 rs

/-- The post-insert verification loop of `PRService.CreatePR`: every
selected reviewer must still exist and be active. -/
def verifyReviewersActive (s : DBState) : List String → Except ServiceErr Unit
  | [] => .ok ()
  | r :: rs =>
    match userGet s r with
    | none => .error .internal
    | some u => if u.isActive then verifyReviewersActive s rs else .error .inactiveReviewer

/-- The transaction body of `PRService.CreatePR`: insert the PR row,
insert the reviewer rows, verify the reviewers are still active. -/
def createPRTx (s : DBState) (prID prName authorID teamName : String)
    (reviewers : List String) (now : Nat) : Except ServiceErr DBState :=
  match prCreate s
      { pullRequestID := prID, pullRequestName := prName, authorID := authorID,
        teamName := teamName, status := .opened, createdAt := now,
        mergedAt := none } with
  | .error .uniqueViolation => .error .prExists
  | .error .fkViolation => .error .prAuthorNotFound
  | .error _ => .error .internal
  | .ok s1 =>
    match insertReviewersLoop prID s1 reviewers with
    | .error e => .error e
    | .ok s2 =>
      match verifyReviewersActive s2 reviewers with
      | .error e => .error e
      | .ok _ => .ok s2

/-- `PRService.CreatePR`. -/
def CreatePR (s : DBState) (prID prName authorID : String) (rand : List Nat)
    (now : Nat) : Except ServiceErr PullRequest × DBState :=
  match userGet s authorID with
  | none => (.error .prAuthorNotFound, s)
  | some author =>
    let teammates := getActiveTeammates s authorID
    match SelectReviewers teammates rand with
    | none => (.error .internal, s)
    | some (reviewers, _) =>
      match createPRTx s prID prName authorID author.teamName reviewers now with
      | .error e => (.error e, s)
      | .ok s1 =>
        match prGet s1 prID with
        | none => (.error .internal, s1)
        | some fullPR => (.ok fullPR, s1)

/-- `PRService.MergePR`. -/
def MergePR (s : DBState) (prID : String) (now : Nat) :
    Except ServiceErr PullRequest × DBState :=
  match prGet s prID with
  | none => (.error .prNotFound, s)
  | some p =>
    if p.status = PRStatus.merged then (.ok p, s)
    else
      match updateStatusToMerged s prID now with
      | .error _ => (.error .internal, s)
      | .ok s1 =>
        match prGet s1 prID with
        | none => (.error .internal, s1)
        | some mergedPR => (.ok mergedPR, s1)

/-- The transaction body of `PRService.ReassignPR`: re-check the status,
replace the reviewer in one statement, verify the new reviewer is active. -/
def reassignTx (s : DBState) (prID oldReviewerID newReviewerID : String) :
    Except ServiceErr DBState :=
  match prGetStatus s prID with
  | none => .error .prNotFound
  | some st =>
    if st ≠ PRStatus.opened then .error .prMerged
    else
      match replaceReviewer s prID oldReviewerID newReviewerID with
      | .error .notAssigned => .error .reviewerNotAssigned
      | .error .fkViolation => .error .prAuthorNotFound
      | .error _ => .error .internal
      | .ok s1 =>
        match userGet s1 newReviewerID with
        | none => .error .internal
        | some u => if u.isActive then .ok s1 else .error .inactiveReviewer

/-- `PRService.ReassignPR`. -/
def ReassignPR (s : DBState) (prID oldReviewerID : String) (rand : List Nat) :
    Except ServiceErr (PullRequest × String) × DBState :=
  match prGet s prID with
  | none => (.error .prNotFound, s)
  | some p =>
    let candidates := getActiveByTeam s p.teamName
    match SelectReassignReviewers candidates p.authorID p.assignedReviewersIDs rand with
    | none => (.error .noCandidate, s)
    | some (newReviewers, _) =>
      match newReviewers with
      | [] => (.error .noCandidate, s)
      | newReviewerID :: _ =>
        match reassignTx s prID oldReviewerID newReviewerID with
        | .error e => (.error e, s)
        | .ok s1 =>
          match prGet s1 prID with
          | none => (.error .internal, s1)
          | some updated => (.ok (updated, newReviewerID), s1)

/-- The reviewer-insertion loop of `PRService.ReplenishReviewers`
(insert errors are wrapped, not classified). -/
def replenishInsertLoop (prID : String) :
    DBState → List String → Except ServiceErr DBState
  | s, [] => .ok s
  | s, r :: rs =>
    match insertReviewer s prID r with
    | .error _ => .error .internal
    | .ok s1 => replenishInsertLoop prID s1 rs

/-- `PRService.ReplenishReviewers`: top the PR back up to `maxReviewers`
reviewers drawn from its own (frozen) team; silently a no-op when the PR
is absent, merged, already full, or no candidate exists. -/
def ReplenishReviewers (s : DBState) (prID : String) (rand : List Nat) :
    Except ServiceErr (DBState × List Nat) :=
  match prGet s prID with
  | none => .ok (s, rand)
  | some p =>
    if p.status ≠ PRStatus.opened then .ok (s, rand)
    else if maxReviewers ≤ p.assignedReviewersIDs.length then .ok (s, rand)
    else
      match SelectReassignReviewers (getActiveByTeam s p.teamName) p.authorID
          p.assignedReviewersIDs rand with
      | none => .ok (s, rand)
      | some (newReviewers, rand') =>
        if newReviewers.length = 0 then .ok (s, rand')
        else
          let need := min (maxReviewers - p.assignedReviewersIDs.length)
            newReviewers.length
          match replenishInsertLoop prID s (newReviewers.take need) with
          | .error e => .error e
          | .ok s1 => .ok (s1, rand')

/-- The member upsert loop of `TeamService.CreateTeam`. -/
def createTeamMembersLoop (teamName : String) :
    DBState → List TeamMember → Except ServiceErr DBState
  | s, [] => .ok s
  | s, m :: rest =>
    match userGet s m.userID with
    | none =>
      match userCreate s
          { userID := m.userID, username := m.username, teamName := teamName,
            isActive := m.isActive } with
      | .error _ => .error .internal
      | .ok s1 => createTeamMembersLoop teamName s1 rest
    | some _ =>
      match userUpdate s
          { userID := m.userID, username := m.username, teamName := teamName,
            isActive := m.isActive } with
      | .error _ => .error .internal
      | .ok s1 => createTeamMembersLoop teamName s1 rest

/-- `TeamService.CreateTeam`. -/
def CreateTeam (s : DBState) (teamName : String) (members : List TeamMember) :
    Except ServiceErr Unit × DBState :=
  if teamExistsQ s teamName then (.error .teamExists, s)
  else
    match teamCreate s teamName with
    | .error _ => (.error .internal, s)
    | .ok s1 =>
      match createTeamMembersLoop teamName s1 members with
      | .error e => (.error e, s)
      | .ok s2 => (.ok (), s2)

/-- Step 3 of `TeamService.DeactivateTeam`: for each affected PR, delete the
deactivated team's reviewers, then (unless the PR's frozen owning team is
the team being deactivated) replenish from the PR's own team. -/
def deactivateLoop (teamName : String) :
    DBState → List (String × List String) → List Nat → Except ServiceErr DBState
  | s, [], _ => .ok s
  | s, (prID, revIDs) :: rest, rand =>
    let s1 := revIDs.foldl (fun acc rid => deleteReviewer acc prID rid) s
    match prGet s1 prID with
    | none => .error .internal
    | some p =>
      if p.teamName == teamName then deactivateLoop teamName s1 rest rand
      else
        match ReplenishReviewers s1 prID rand with
        | .error e => .error e
        | .ok (s2, rand') => deactivateLoop teamName s2 rest rand'

/-- `TeamService.DeactivateTeam`. -/
def DeactivateTeam (s : DBState) (teamName : String) (rand : List Nat) :
    Except ServiceErr Unit × DBState :=
  if teamGetOk s teamName then
    let s1 := deactivateAll s teamName
    match deactivateLoop teamName s1 (getOpenPRsWithReviewersFromTeam s1 teamName) rand with
    | .error e => (.error e, s)
    | .ok s2 => (.ok (), s2)
  else (.error .teamNotFound, s)

/-- The empty database. -/
def initState : DBState := { teams := [], users := [], prs := [], prReviewers := [] }

/-- One engine operation, with arbitrary arguments, taking the database
from `s` to the state after the call (errors leave the state as the
operation returns it). -/
inductive Step : DBState → DBState → Prop where
  | createTeam (s : DBState) (teamName : String) (members : List TeamMember) :
      Step s (CreateTeam s teamName members).2
  | createPR (s : DBState) (prID prName authorID : String) (rand : List Nat)
      (now : Nat) : Step s (CreatePR s prID prName authorID rand now).2
  | mergePR (s : DBState) (prID : String) (now : Nat) :
      Step s (MergePR s prID now).2
  | reassignPR (s : DBState) (prID oldReviewerID : String) (rand : List Nat) :
      Step s (ReassignPR s prID oldReviewerID rand).2
  | replenish (s : DBState) (prID : String) (rand : List Nat) (s2 : DBState)
      (rand2 : List Nat) :
      ReplenishReviewers s prID rand = .ok (s2, rand2) → Step s s2
  | deactivateTeam (s : DBState) (teamName : String) (rand : List Nat) :
      Step s (DeactivateTeam s teamName rand).2

/-- States reachable from the empty database by engine operations. -/
inductive Reachable : DBState → Prop where
  | init : Reachable initState
  | step {s s2 : DBState} : Reachable s → Step s s2 → Reachable s2

/-- Well-formedness of a database state: primary keys are unique, the
join table has no duplicate rows and respects its foreign keys, every
OPEN pull request has at most 2 distinct reviewers none of whom is its
author, and `merged_at` is set exactly on MERGED rows. -/
def WF (s : DBState) : Prop :=
  (s.users.map User.userID).Nodup ∧
  (s.prs.map PRRow.pullRequestID).Nodup ∧
  s.prReviewers.Nodup ∧
  (∀ rv ∈ s.prReviewers,
    (∃ r ∈ s.prs, r.pullRequestID = rv.1) ∧ (∃ u ∈ s.users, u.userID = rv.2)) ∧
  (∀ r ∈ s.prs, r.status = PRStatus.opened →
    (reviewersOf s r.pullRequestID).length ≤ 2 ∧
    (reviewersOf s r.pullRequestID).Nodup ∧
    r.authorID ∉ reviewersOf s r.pullRequestID) ∧
  (∀ r ∈ s.prs, r.mergedAt.isSome ↔ r.status = PRStatus.merged)



/-! ### Selection policy lemmas -/

theorem selectTwoLoop_spec (teammates : List User)
    (hpos : 0 < teammates.length)
    (hnd : (teammates.map User.userID).Nodup) :
    ∀ (rand selected : List Nat) (reviewers rs : List String) (r' : List Nat),
    (∀ i ∈ selected, i < teammates.length) →
    reviewers = (selected.map
      (fun i => (teammates.getD i dummyUser).userID)).reverse →
    selected.Nodup →
    reviewers.length ≤ 2 →
    selectTwoLoop teammates rand selected reviewers = some (rs, r') →
    rs.Nodup ∧ rs.length = 2 ∧ ∀ x ∈ rs, x ∈ teammates.map User.userID := by
  intro rand
  induction rand with
  | nil =>
    intro selected reviewers rs r' hb hcorr hsel hlen hrun
    rw [selectTwoLoop] at hrun
    by_cases h2 : 2 ≤ reviewers.length
    · simp only [if_pos h2] at hrun
      obtain ⟨rfl, rfl⟩ : reviewers = rs ∧ [] = r' := by
        simpa using hrun
      refine ⟨?_, le_antisymm hlen h2, ?_⟩
      · subst hcorr
        rw [List.nodup_reverse]
        refine List.Nodup.map_on ?_ hsel
        intro i hi j hj hij
        have hilt := hb i hi
        have hjlt := hb j hj
        have hmap : (teammates.map User.userID).get ⟨i, by simpa using hilt⟩ =
            (teammates.map User.userID).get ⟨j, by simpa using hjlt⟩ := by
          rw [List.get_map, List.get_map]
          rw [List.getD_eq_get teammates dummyUser hilt,
            List.getD_eq_get teammates dummyUser hjlt] at hij
          exact hij
        have := (List.Nodup.get_inj_iff hnd).mp hmap
        simpa using this
      · intro x hx
        subst hcorr
        simp only [List.mem_reverse, List.mem_map] at hx
        obtain ⟨i, hi, rfl⟩ := hx
        have hilt := hb i hi
        rw [List.getD_eq_get teammates dummyUser hilt]
        exact List.mem_map_of_mem User.userID (List.get_mem _ _ _)
    · simp only [if_neg h2] at hrun
      exact absurd hrun (by simp)
  | cons d rest ih =>
    intro selected reviewers rs r' hb hcorr hsel hlen hrun
    rw [selectTwoLoop] at hrun
    by_cases h2 : 2 ≤ reviewers.length
    · simp only [if_pos h2] at hrun
      obtain ⟨rfl, rfl⟩ : reviewers = rs ∧ d :: rest = r' := by
        simpa using hrun
      refine ⟨?_, le_antisymm hlen h2, ?_⟩
      · subst hcorr
        rw [List.nodup_reverse]
        refine List.Nodup.map_on ?_ hsel
        intro i hi j hj hij
        have hilt := hb i hi
        have hjlt := hb j hj
        have hmap : (teammates.map User.userID).get ⟨i, by simpa using hilt⟩ =
            (teammates.map User.userID).get ⟨j, by simpa using hjlt⟩ := by
          rw [List.get_map, List.get_map]
          rw [List.getD_eq_get teammates dummyUser hilt,
            List.getD_eq_get teammates dummyUser hjlt] at hij
          exact hij
        have := (List.Nodup.get_inj_iff hnd).mp hmap
        simpa using this
      · intro x hx
        subst hcorr
        simp only [List.mem_reverse, List.mem_map] at hx
        obtain ⟨i, hi, rfl⟩ := hx
        have hilt := hb i hi
        rw [List.getD_eq_get teammates dummyUser hilt]
        exact List.mem_map_of_mem User.userID (List.get_mem _ _ _)
    · simp only [if_neg h2] at hrun
      by_cases hmem : (d % teammates.length) ∈ selected
      · simp only [if_pos hmem] at hrun
        exact ih selected reviewers rs r' hb hcorr hsel hlen hrun
      · simp only [if_neg hmem] at hrun
        refine ih ((d % teammates.length) :: selected)
          (reviewers ++ [(teammates.getD (d % teammates.length) dummyUser).userID])
          rs r' ?_ ?_ ?_ ?_ hrun
        · intro i hi
          rcases List.mem_cons.mp hi with h | h
          · subst h
            exact Nat.mod_lt _ hpos
          · exact hb i h
        · subst hcorr
          simp
        · exact List.Nodup.cons hmem hsel
        · have : reviewers.length ≤ 1 := by omega
          simp [this]


theorem SelectReviewers_spec {teammates : List User} {rand r' : List Nat}
    {rs : List String} (hnd : (teammates.map User.userID).Nodup)
    (h : SelectReviewers teammates rand = some (rs, r')) :
    rs.Nodup ∧ rs.length ≤ 2 ∧ ∀ x ∈ rs, x ∈ teammates.map User.userID := by
  rw [SelectReviewers] at h
  by_cases h0 : teammates.length = 0
  · simp only [if_pos h0] at h
    obtain ⟨rfl, rfl⟩ : [] = rs ∧ rand = r' := by simpa using h
    simp
  · simp only [if_neg h0] at h
    by_cases h2 : teammates.length ≤ 2
    · simp only [if_pos h2] at h
      obtain ⟨rfl, rfl⟩ : teammates.map User.userID = rs ∧ rand = r' := by
        simpa using h
      exact ⟨hnd, by simpa using h2, fun x hx => hx⟩
    · simp only [if_neg h2] at h
      have hspec := selectTwoLoop_spec teammates (Nat.pos_of_ne_zero h0) hnd
        rand [] [] rs r' (by simp) (by simp) (by simp) (by simp) h
      exact ⟨hspec.1, le_of_eq hspec.2.1, hspec.2.2⟩

theorem selectTwoLoop_two_le (teammates : List User) :
    ∀ (rand selected : List Nat) (reviewers rs : List String) (r' : List Nat),
    selectTwoLoop teammates rand selected reviewers = some (rs, r') →
    2 ≤ rs.length := by
  intro rand
  induction rand with
  | nil =>
    intro selected reviewers rs r' h
    rw [selectTwoLoop] at h
    by_cases h2 : 2 ≤ reviewers.length
    · simp only [if_pos h2] at h
      obtain ⟨rfl, rfl⟩ : reviewers = rs ∧ [] = r' := by simpa using h
      exact h2
    · simp only [if_neg h2] at h
      exact absurd h (by simp)
  | cons d rest ih =>
    intro selected reviewers rs r' h
    rw [selectTwoLoop] at h
    by_cases h2 : 2 ≤ reviewers.length
    · simp only [if_pos h2] at h
      obtain ⟨rfl, rfl⟩ : reviewers = rs ∧ d :: rest = r' := by simpa using h
      exact h2
    · simp only [if_neg h2] at h
      by_cases hmem : (d % teammates.length) ∈ selected
      · simp only [if_pos hmem] at h
        exact ih selected reviewers rs r' h
      · simp only [if_neg hmem] at h
        exact ih _ _ rs r' h

theorem SelectReviewers_nonempty {teammates : List User} {rand r' : List Nat}
    {rs : List String} (hne : teammates ≠ [])
    (h : SelectReviewers teammates rand = some (rs, r')) : rs ≠ [] := by
  rw [SelectReviewers] at h
  by_cases h0 : teammates.length = 0
  · exact absurd (List.length_eq_zero.mp h0) hne
  · simp only [if_neg h0] at h
    by_cases h2 : teammates.length ≤ 2
    · simp only [if_pos h2] at h
      obtain ⟨rfl, rfl⟩ : teammates.map User.userID = rs ∧ rand = r' := by
        simpa using h
      simpa using hne
    · simp only [if_neg h2] at h
      have := selectTwoLoop_two_le teammates rand [] [] rs r' h
      intro hrs
      subst hrs
      simp at this

theorem SelectReassignReviewers_spec {teammates : List User}
    {authorID : String} {assigned : List String} {rand r' : List Nat}
    {rs : List String} (hnd : (teammates.map User.userID).Nodup)
    (h : SelectReassignReviewers teammates authorID assigned rand = some (rs, r')) :
    rs.Nodup ∧ rs.length ≤ 2 ∧
    ∀ x ∈ rs, ∃ u ∈ teammates, u.userID = x ∧ x ≠ authorID ∧ x ∉ assigned := by
  rw [SelectReassignReviewers] at h
  by_cases hc : (teammates.filter (fun u =>
      !(u.userID == authorID) && !(assigned.contains u.userID))).length = 0
  · simp only [if_pos hc] at h
    exact absurd h (by simp)
  · simp only [if_neg hc] at h
    have hcnd : ((teammates.filter (fun u =>
        !(u.userID == authorID) && !(assigned.contains u.userID))).map
          User.userID).Nodup :=
      List.Nodup.sublist (List.Sublist.map User.userID
        (List.filter_sublist teammates)) hnd
    have hspec := SelectReviewers_spec hcnd h
    refine ⟨hspec.1, hspec.2.1, ?_⟩
    intro x hx
    have hmem := hspec.2.2 x hx
    simp only [List.mem_map, List.mem_filter, Bool.and_eq_true,
      Bool.not_eq_true', beq_eq_false_iff_ne] at hmem
    obtain ⟨u, ⟨humem, hne, hcontains⟩, rfl⟩ := hmem
    refine ⟨u, humem, rfl, hne, ?_⟩
    intro hin
    simp at hcontains
    exact hcontains hin

/-! ### C7: SelectInitialReviewers contract -/

/-- C7: `SelectReviewers` (the spec's `SelectInitialReviewers`) returns the
empty list on an empty pool, all pool members (no error) when the pool has
at most 2 members, and otherwise exactly 2 distinct ids drawn from the
pool by rejection sampling over a uniformly random index. -/
theorem C7_selectInitialReviewers_contract (pool : List User) (rand : List Nat) :
    (pool = [] → SelectReviewers pool rand = some ([], rand)) ∧
    (pool.length ≤ 2 → SelectReviewers pool rand = some (pool.map User.userID, rand)) ∧
    ((pool.map User.userID).Nodup → 2 < pool.length →
      ∀ (rs : List String) (r2 : List Nat),
        SelectReviewers pool rand = some (rs, r2) →
        rs.length = 2 ∧ rs.Nodup ∧ ∀ x ∈ rs, x ∈ pool.map User.userID) := by
  refine ⟨?_, ?_, ?_⟩
  · intro h
    subst h
    rw [SelectReviewers]
    simp
  · intro h2
    rw [SelectReviewers]
    by_cases h0 : pool.length = 0
    · have : pool = [] := List.length_eq_zero.mp h0
      subst this
      simp
    · simp only [if_neg h0, if_pos h2]
  · intro hnd hgt rs r2 h
    rw [SelectReviewers] at h
    have h0 : pool.length ≠ 0 := by omega
    have h2 : ¬ pool.length ≤ 2 := by omega
    simp only [if_neg h0, if_neg h2] at h
    have hspec := selectTwoLoop_spec pool (Nat.pos_of_ne_zero h0) hnd
      rand [] [] rs r2 (by simp) (by simp) (by simp) (by simp) h
    exact ⟨hspec.2.1, hspec.1, hspec.2.2⟩

/-- A concrete 3-member pool used by witnesses. -/
def c7pool : List User :=
  [{ userID := "u1", username := "n1", teamName := "A", isActive := true },
   { userID := "u2", username := "n2", teamName := "A", isActive := true },
   { userID := "u3", username := "n3", teamName := "A", isActive := true }]

/-- Witness for C7 at a concrete pool of 3 users and entropy `[0, 1]`. -/
theorem C7_selectInitialReviewers_contract_witness :
    (["u1", "u2"] : List String).length = 2 ∧
    (["u1", "u2"] : List String).Nodup ∧
    ∀ x ∈ (["u1", "u2"] : List String), x ∈ c7pool.map User.userID :=
  (C7_selectInitialReviewers_contract c7pool [0, 1]).2.2 (by decide) (by decide)
    ["u1", "u2"] [] rfl

/-! ### Merge lemmas and C5 -/

theorem prRowGet_eq_some {s : DBState} {prID : String} {r : PRRow}
    (h : prRowGet s prID = some r) : r ∈ s.prs ∧ r.pullRequestID = prID := by
  unfold prRowGet at h
  have hm := List.mem_of_find?_eq_some h
  have hp := List.find?_some h
  exact ⟨hm, by simpa using hp⟩

theorem prGet_eq_some {s : DBState} {prID : String} {p : PullRequest}
    (h : prGet s prID = some p) :
    ∃ r, prRowGet s prID = some r ∧
      p.pullRequestID = r.pullRequestID ∧ p.pullRequestName = r.pullRequestName ∧
      p.authorID = r.authorID ∧ p.teamName = r.teamName ∧ p.status = r.status ∧
      p.assignedReviewersIDs = reviewersOf s prID ∧
      p.createdAt = r.createdAt ∧ p.mergedAt = r.mergedAt := by
  unfold prGet at h
  cases hr : prRowGet s prID with
  | none => rw [hr] at h; exact absurd h (by simp)
  | some r =>
    rw [hr] at h
    simp only [Option.map_some'] at h
    injection h with h2
    subst h2
    exact ⟨r, rfl, rfl, rfl, rfl, rfl, rfl, rfl, rfl, rfl⟩

theorem updateStatusToMerged_ok {s : DBState} {prID : String} {r0 : PRRow}
    (now : Nat) (hr : prRowGet s prID = some r0)
    (hopen : r0.status = PRStatus.opened) :
    updateStatusToMerged s prID now =
      .ok { s with prs := s.prs.map (fun r =>
        if r.pullRequestID == prID && r.status == PRStatus.opened then
          { r with status := .merged, mergedAt := some now }
        else r) } := by
  unfold updateStatusToMerged
  rw [if_pos]
  obtain ⟨hm, hid⟩ := prRowGet_eq_some hr
  exact List.any_eq_true.mpr ⟨r0, hm, by simp [hid, hopen]⟩

theorem prRowGet_merge_map {s : DBState} {prID : String} {r0 : PRRow}
    (now : Nat) (hr : prRowGet s prID = some r0) :
    prRowGet { s with prs := s.prs.map (fun r =>
        if r.pullRequestID == prID && r.status == PRStatus.opened then
          { r with status := .merged, mergedAt := some now }
        else r) } prID =
    some (if r0.pullRequestID == prID && r0.status == PRStatus.opened then
          { r0 with status := .merged, mergedAt := some now }
        else r0) := by
  unfold prRowGet at hr ⊢
  simp only [List.find?_map]
  have hpred : ((fun r : PRRow => r.pullRequestID == prID) ∘ (fun r =>
      if r.pullRequestID == prID && r.status == PRStatus.opened then
        { r with status := PRStatus.merged, mergedAt := some now }
      else r)) = (fun r : PRRow => r.pullRequestID == prID) := by
    funext r
    by_cases hc : r.pullRequestID == prID && r.status == PRStatus.opened
    · simp [Function.comp, hc]
    · simp [Function.comp, hc]
  rw [hpred, hr]
  simp

/-- C5: `MergePR` is idempotent — a successful call leaves the state so that
a second call on the same id succeeds, returns the very same pull request
(status MERGED, same `merged_at`), and changes nothing. -/
theorem C5_mergePR_idempotent {s s1 : DBState} {prID : String}
    {p : PullRequest} {n1 n2 : Nat}
    (h : MergePR s prID n1 = (.ok p, s1)) :
    MergePR s1 prID n2 = (.ok p, s1) ∧ p.status = PRStatus.merged := by
  unfold MergePR at h
  cases hpg : prGet s prID with
  | none =>
    rw [hpg] at h
    dsimp only at h
    exact absurd h (by simp)
  | some q =>
    rw [hpg] at h
    dsimp only at h
    by_cases hq : q.status = PRStatus.merged
    · rw [if_pos hq] at h
      rw [Prod.mk.injEq] at h
      obtain ⟨h1, rfl⟩ := h
      injection h1 with h1
      subst h1
      unfold MergePR
      rw [hpg]
      dsimp only
      rw [if_pos hq]
      exact ⟨rfl, hq⟩
    · rw [if_neg hq] at h
      obtain ⟨r0, hr0, hfields⟩ := prGet_eq_some hpg
      have hopen : r0.status = PRStatus.opened := by
        cases hst : r0.status with
        | opened => rfl
        | merged => exact absurd (hfields.2.2.2.2.1.trans hst) hq
      rw [updateStatusToMerged_ok n1 hr0 hopen] at h
      dsimp only at h
      have hid : r0.pullRequestID = prID := (prRowGet_eq_some hr0).2
      have hcond : (r0.pullRequestID == prID && r0.status == PRStatus.opened) = true := by
        simp [hid, hopen]
      have hrow := @prRowGet_merge_map s prID r0 n1 hr0
      rw [if_pos hcond] at hrow
      have hget2 : prGet { s with prs := s.prs.map (fun r =>
          if r.pullRequestID == prID && r.status == PRStatus.opened then
            { r with status := PRStatus.merged, mergedAt := some n1 }
          else r) } prID =
          some { pullRequestID := r0.pullRequestID,
                 pullRequestName := r0.pullRequestName,
                 authorID := r0.authorID, teamName := r0.teamName,
                 status := PRStatus.merged,
                 assignedReviewersIDs := reviewersOf s prID,
                 createdAt := r0.createdAt, mergedAt := some n1 } := by
        unfold prGet
        rw [hrow]
        rfl
      rw [hget2] at h
      dsimp only at h
      rw [Prod.mk.injEq] at h
      obtain ⟨h1, rfl⟩ := h
      injection h1 with h1
      subst h1
      refine ⟨?_, rfl⟩
      unfold MergePR
      rw [hget2]
      dsimp only
      rw [if_pos rfl]

/-- A one-PR state used by the C5 witness. -/
def c5state : DBState :=
  { teams := ["A"],
    users := [{ userID := "u1", username := "n1", teamName := "A", isActive := true }],
    prs := [{ pullRequestID := "p1", pullRequestName := "x", authorID := "u1",
              teamName := "A", status := .opened, createdAt := 1, mergedAt := none }],
    prReviewers := [] }

/-- The state after merging `p1` in `c5state` at time 5. -/
def c5merged : DBState :=
  { teams := ["A"],
    users := [{ userID := "u1", username := "n1", teamName := "A", isActive := true }],
    prs := [{ pullRequestID := "p1", pullRequestName := "x", authorID := "u1",
              teamName := "A", status := .merged, createdAt := 1, mergedAt := some 5 }],
    prReviewers := [] }

/-- The pull request returned by merging `p1` in `c5state` at time 5. -/
def c5pr : PullRequest :=
  { pullRequestID := "p1", pullRequestName := "x", authorID := "u1",
    teamName := "A", status := .merged, assignedReviewersIDs := [],
    createdAt := 1, mergedAt := some 5 }

/-- Witness for C5: a concrete first merge, then the second call at a
different timestamp returns the same pull request and state. -/
theorem C5_mergePR_idempotent_witness :
    MergePR c5merged "p1" 9 = (.ok c5pr, c5merged) ∧
    c5pr.status = PRStatus.merged :=
  @C5_mergePR_idempotent c5state c5merged "p1" c5pr 5 9 rfl

/-! ### Reviewer-set and selection membership lemmas -/

theorem mem_reviewersOf {s : DBState} {prID x : String} :
    x ∈ reviewersOf s prID ↔ (prID, x) ∈ s.prReviewers := by
  unfold reviewersOf
  simp only [List.mem_map, List.mem_filter, beq_iff_eq]
  constructor
  · rintro ⟨⟨a, b⟩, ⟨hm, rfl⟩, rfl⟩
    exact hm
  · intro hm
    exact ⟨(prID, x), ⟨hm, rfl⟩, rfl⟩

theorem selectTwoLoop_mem (teammates : List User) (hpos : 0 < teammates.length) :
    ∀ (rand selected : List Nat) (reviewers rs : List String) (r' : List Nat),
    selectTwoLoop teammates rand selected reviewers = some (rs, r') →
    ∀ x ∈ rs, x ∈ reviewers ∨ x ∈ teammates.map User.userID := by
  intro rand
  induction rand with
  | nil =>
    intro selected reviewers rs r' h x hx
    rw [selectTwoLoop] at h
    by_cases h2 : 2 ≤ reviewers.length
    · simp only [if_pos h2] at h
      obtain ⟨rfl, rfl⟩ : reviewers = rs ∧ [] = r' := by simpa using h
      exact Or.inl hx
    · simp only [if_neg h2] at h
      exact absurd h (by simp)
  | cons d rest ih =>
    intro selected reviewers rs r' h x hx
    rw [selectTwoLoop] at h
    by_cases h2 : 2 ≤ reviewers.length
    · simp only [if_pos h2] at h
      obtain ⟨rfl, rfl⟩ : reviewers = rs ∧ d :: rest = r' := by simpa using h
      exact Or.inl hx
    · simp only [if_neg h2] at h
      by_cases hmem : (d % teammates.length) ∈ selected
      · simp only [if_pos hmem] at h
        exact ih selected reviewers rs r' h x hx
      · simp only [if_neg hmem] at h
        rcases ih _ _ rs r' h x hx with hin | hin
        · rcases List.mem_append.mp hin with hin2 | hin2
          · exact Or.inl hin2
          · refine Or.inr ?_
            have hlt : d % teammates.length < teammates.length := Nat.mod_lt _ hpos
            have hmem2 : (teammates.getD (d % teammates.length) dummyUser) ∈ teammates := by
              rw [List.getD_eq_getElem teammates dummyUser hlt]
              exact List.getElem_mem _
            have hx2 : x = (teammates.getD (d % teammates.length) dummyUser).userID :=
              List.mem_singleton.mp hin2
            rw [hx2]
            exact List.mem_map_of_mem User.userID hmem2
        · exact Or.inr hin

theorem SelectReviewers_mem {teammates : List User} {rand r' : List Nat}
    {rs : List String} (h : SelectReviewers teammates rand = some (rs, r')) :
    ∀ x ∈ rs, x ∈ teammates.map User.userID := by
  rw [SelectReviewers] at h
  by_cases h0 : teammates.length = 0
  · simp only [if_pos h0] at h
    obtain ⟨rfl, rfl⟩ : [] = rs ∧ rand = r' := by simpa using h
    simp
  · simp only [if_neg h0] at h
    by_cases h2 : teammates.length ≤ 2
    · simp only [if_pos h2] at h
      obtain ⟨rfl, rfl⟩ : teammates.map User.userID = rs ∧ rand = r' := by
        simpa using h
      exact fun x hx => hx
    · simp only [if_neg h2] at h
      intro x hx
      rcases selectTwoLoop_mem teammates (Nat.pos_of_ne_zero h0)
        rand [] [] rs r' h x hx with hin | hin
      · exact absurd hin (by simp)
      · exact hin

theorem SelectReassignReviewers_mem {teammates : List User}
    {authorID : String} {assigned : List String} {rand r' : List Nat}
    {rs : List String}
    (h : SelectReassignReviewers teammates authorID assigned rand = some (rs, r')) :
    ∀ x ∈ rs, ∃ u ∈ teammates, u.userID = x ∧ x ≠ authorID ∧ x ∉ assigned := by
  rw [SelectReassignReviewers] at h
  by_cases hc : (teammates.filter (fun u =>
      !(u.userID == authorID) && !(assigned.contains u.userID))).length = 0
  · simp only [if_pos hc] at h
    exact absurd h (by simp)
  · simp only [if_neg hc] at h
    intro x hx
    have hmem := SelectReviewers_mem h x hx
    simp only [List.mem_map, List.mem_filter, Bool.and_eq_true,
      Bool.not_eq_true', beq_eq_false_iff_ne] at hmem
    obtain ⟨u, ⟨humem, hne, hcontains⟩, rfl⟩ := hmem
    refine ⟨u, humem, rfl, hne, ?_⟩
    intro hin
    simp at hcontains
    exact hcontains hin

/-! ### ReplaceReviewer lemmas -/

theorem replaceReviewer_ok {s s' : DBState} {prID oldR newR : String}
    (h : replaceReviewer s prID oldR newR = .ok s') :
    oldR ∈ reviewersOf s prID ∧
    s' = { s with prReviewers :=
      (s.prReviewers.filter (fun rv => !(rv.1 == prID && rv.2 == oldR)))
        ++ [(prID, newR)] } := by
  unfold replaceReviewer at h
  by_cases h1 : s.prReviewers.any (fun rv => rv.1 == prID && rv.2 == oldR)
  · rw [if_pos h1] at h
    constructor
    · rw [mem_reviewersOf]
      obtain ⟨⟨a, b⟩, hm, hp⟩ := List.any_eq_true.mp h1
      simp only [Bool.and_eq_true, beq_iff_eq] at hp
      obtain ⟨rfl, rfl⟩ := hp
      exact hm
    · by_cases h2 : (s.prReviewers.filter
          (fun rv => !(rv.1 == prID && rv.2 == oldR))).any
          (fun rv => rv.1 == prID && rv.2 == newR)
      · rw [if_pos h2] at h
        exact absurd h (by simp)
      · rw [if_neg h2] at h
        by_cases h3 : s.prs.any (fun r => r.pullRequestID == prID) &&
            s.users.any (fun u => u.userID == newR)
        · rw [if_pos h3] at h
          injection h with h
          exact h.symm
        · rw [if_neg h3] at h
          exact absurd h (by simp)
  · rw [if_neg h1] at h
    exact absurd h (by simp)

theorem replaceReviewer_notAssigned {s : DBState} {prID oldR newR : String}
    (h : oldR ∉ reviewersOf s prID) :
    replaceReviewer s prID oldR newR = .error .notAssigned := by
  unfold replaceReviewer
  rw [if_neg]
  intro hany
  obtain ⟨⟨a, b⟩, hm, hp⟩ := List.any_eq_true.mp hany
  simp only [Bool.and_eq_true, beq_iff_eq] at hp
  obtain ⟨rfl, rfl⟩ := hp
  exact h (mem_reviewersOf.mpr hm)

/-! ### ReassignPR lemmas, C3 and C8 -/

theorem prGetStatus_eq_of_prGet {s : DBState} {prID : String} {q : PullRequest}
    (h : prGet s prID = some q) : prGetStatus s prID = some q.status := by
  unfold prGet at h
  unfold prGetStatus
  cases hr : prRowGet s prID with
  | none => rw [hr] at h; exact absurd h (by simp)
  | some r =>
    rw [hr] at h
    simp only [Option.map_some'] at h
    injection h with h
    subst h
    simp

theorem reassignTx_ok {s s' : DBState} {prID oldR newR : String}
    (h : reassignTx s prID oldR newR = .ok s') :
    prGetStatus s prID = some PRStatus.opened ∧
    oldR ∈ reviewersOf s prID ∧
    s' = { s with prReviewers :=
      (s.prReviewers.filter (fun rv => !(rv.1 == prID && rv.2 == oldR)))
        ++ [(prID, newR)] } := by
  unfold reassignTx at h
  cases hst : prGetStatus s prID with
  | none => rw [hst] at h; exact absurd h (by simp)
  | some st =>
    rw [hst] at h
    dsimp only at h
    by_cases hopen : st ≠ PRStatus.opened
    · rw [if_pos hopen] at h
      exact absurd h (by simp)
    · rw [if_neg hopen] at h
      push_neg at hopen
      subst hopen
      cases hrep : replaceReviewer s prID oldR newR with
      | error e =>
        rw [hrep] at h
        cases e <;> exact absurd h (by simp)
      | ok s2 =>
        rw [hrep] at h
        dsimp only at h
        obtain ⟨hold, rfl⟩ := replaceReviewer_ok hrep
        cases hug : userGet { s with prReviewers :=
            (s.prReviewers.filter (fun rv => !(rv.1 == prID && rv.2 == oldR)))
              ++ [(prID, newR)] } newR with
        | none => rw [hug] at h; exact absurd h (by simp)
        | some u =>
          rw [hug] at h
          dsimp only at h
          by_cases hact : u.isActive
          · rw [if_pos hact] at h
            injection h with h
            exact ⟨rfl, hold, h.symm⟩
          · rw [if_neg hact] at h
            exact absurd h (by simp)

theorem ReassignPR_ok_char {s s1 : DBState} {prID oldR newR : String}
    {p : PullRequest} {rand : List Nat}
    (h : ReassignPR s prID oldR rand = (.ok (p, newR), s1)) :
    ∃ q, prGet s prID = some q ∧
      (∃ u ∈ getActiveByTeam s q.teamName, u.userID = newR) ∧
      newR ≠ q.authorID ∧
      newR ∉ q.assignedReviewersIDs ∧
      oldR ∈ reviewersOf s prID ∧
      q.status = PRStatus.opened ∧
      s1 = { s with prReviewers :=
        (s.prReviewers.filter (fun rv => !(rv.1 == prID && rv.2 == oldR)))
          ++ [(prID, newR)] } := by
  unfold ReassignPR at h
  cases hq : prGet s prID with
  | none => rw [hq] at h; dsimp only at h; exact absurd h (by simp)
  | some q =>
    rw [hq] at h
    dsimp only at h
    cases hsel : SelectReassignReviewers (getActiveByTeam s q.teamName)
        q.authorID q.assignedReviewersIDs rand with
    | none => rw [hsel] at h; exact absurd h (by simp)
    | some pair =>
      rw [hsel] at h
      obtain ⟨rs, r2⟩ := pair
      dsimp only at h
      cases rs with
      | nil => exact absurd h (by simp)
      | cons newR0 rest =>
        dsimp only at h
        cases htx : reassignTx s prID oldR newR0 with
        | error e => rw [htx] at h; exact absurd h (by simp)
        | ok s2 =>
          rw [htx] at h
          dsimp only at h
          cases hg2 : prGet s2 prID with
          | none => rw [hg2] at h; exact absurd h (by simp)
          | some up =>
            rw [hg2] at h
            dsimp only at h
            rw [Prod.mk.injEq] at h
            obtain ⟨h1, rfl⟩ := h
            injection h1 with h1
            rw [Prod.mk.injEq] at h1
            obtain ⟨rfl, rfl⟩ := h1
            obtain ⟨hst, hold, rfl⟩ := reassignTx_ok htx
            obtain ⟨u, hu, huid, hne, hnotass⟩ :=
              SelectReassignReviewers_mem hsel newR0 (by simp)
            have hqst : some q.status = some PRStatus.opened :=
              (prGetStatus_eq_of_prGet hq).symm.trans hst
            injection hqst with hqst
            exact ⟨q, rfl, ⟨u, hu, huid⟩, hne, hnotass, hold, hqst, rfl⟩

/-- C3: a successful `ReassignPR(prID, old)` returns a reviewer different
from `old`, from the PR's author, and from every previously assigned
reviewer, and the post-state reviewer set is the pre-state set with `old`
removed and the new reviewer added. -/
theorem C3_reassignPR_exclusion {s s1 : DBState} {prID oldR newR : String}
    {p : PullRequest} {rand : List Nat}
    (h : ReassignPR s prID oldR rand = (.ok (p, newR), s1)) :
    newR ≠ oldR ∧
    (∃ q, prGet s prID = some q ∧ newR ≠ q.authorID) ∧
    newR ∉ reviewersOf s prID ∧
    oldR ∈ reviewersOf s prID ∧
    (∀ x, x ∈ reviewersOf s1 prID ↔
      (x ∈ reviewersOf s prID ∧ x ≠ oldR) ∨ x = newR) := by
  obtain ⟨q, hq, hcand, hne, hnotass, hold, hopen, rfl⟩ := ReassignPR_ok_char h
  obtain ⟨r, hr, hfields⟩ := prGet_eq_some hq
  have hrevs : q.assignedReviewersIDs = reviewersOf s prID := hfields.2.2.2.2.2.1
  have hnotrev : newR ∉ reviewersOf s prID := hrevs ▸ hnotass
  refine ⟨fun hc => hnotrev (hc ▸ hold), ⟨q, hq, hne⟩, hnotrev, hold, ?_⟩
  intro x
  rw [mem_reviewersOf, mem_reviewersOf]
  simp only [List.mem_append, List.mem_filter, List.mem_singleton,
    Bool.not_eq_true', Bool.and_eq_false_iff, beq_eq_false_iff_ne,
    Prod.mk.injEq]
  constructor
  · rintro (⟨hm, hcond⟩ | hx)
    · rcases hcond with hc | hc
      · exact absurd rfl hc
      · exact Or.inl ⟨hm, hc⟩
    · exact Or.inr (by simpa using hx)
  · rintro (⟨hm, hxne⟩ | rfl)
    · exact Or.inl ⟨hm, Or.inr hxne⟩
    · exact Or.inr (by simp)

/-- A 3-user, one-PR state used by the C3 witness (author `u1`,
current reviewer `u2`). -/
def c3state : DBState :=
  { teams := ["A"],
    users := [{ userID := "u1", username := "n1", teamName := "A", isActive := true },
              { userID := "u2", username := "n2", teamName := "A", isActive := true },
              { userID := "u3", username := "n3", teamName := "A", isActive := true }],
    prs := [{ pullRequestID := "p1", pullRequestName := "x", authorID := "u1",
              teamName := "A", status := .opened, createdAt := 1, mergedAt := none }],
    prReviewers := [("p1", "u2")] }

/-- The state after `ReassignPR(p1, u2)` on `c3state` (reviewer `u3`). -/
def c3state2 : DBState :=
  { c3state with prReviewers := [("p1", "u3")] }

/-- Witness for C3: `ReassignPR(p1, u2)` on `c3state` returns `u3`, which
differs from `u2`, from the author, and from every pre-call reviewer. -/
theorem C3_reassignPR_exclusion_witness :
    ("u3" : String) ≠ "u2" ∧
    (∃ q, prGet c3state "p1" = some q ∧ ("u3" : String) ≠ q.authorID) ∧
    ("u3" : String) ∉ reviewersOf c3state "p1" ∧
    ("u2" : String) ∈ reviewersOf c3state "p1" ∧
    (∀ x, x ∈ reviewersOf c3state2 "p1" ↔
      (x ∈ reviewersOf c3state "p1" ∧ x ≠ "u2") ∨ x = "u3") :=
  @C3_reassignPR_exclusion c3state c3state2 "p1" "u2" "u3"
    (PullRequest.mk "p1" "x" "u1" "A" .opened ["u3"] 1 none) [] rfl

theorem replaceReviewer_notAssigned_iff {s : DBState} {prID oldR newR : String} :
    replaceReviewer s prID oldR newR = .error .notAssigned ↔
    oldR ∉ reviewersOf s prID := by
  constructor
  · intro h hmem
    unfold replaceReviewer at h
    rw [if_pos] at h
    · by_cases h2 : (s.prReviewers.filter
          (fun rv => !(rv.1 == prID && rv.2 == oldR))).any
          (fun rv => rv.1 == prID && rv.2 == newR)
      · rw [if_pos h2] at h
        exact absurd h (by simp)
      · rw [if_neg h2] at h
        by_cases h3 : s.prs.any (fun r => r.pullRequestID == prID) &&
            s.users.any (fun u => u.userID == newR)
        · rw [if_pos h3] at h
          exact absurd h (by simp)
        · rw [if_neg h3] at h
          exact absurd h (by simp)
    · exact List.any_eq_true.mpr ⟨(prID, oldR), mem_reviewersOf.mp hmem, by simp⟩
  · exact replaceReviewer_notAssigned

theorem reassignTx_rna_iff {s : DBState} {prID oldR newR : String}
    (hst : prGetStatus s prID = some PRStatus.opened) :
    (reassignTx s prID oldR newR = .error .reviewerNotAssigned ↔
      oldR ∉ reviewersOf s prID) := by
  unfold reassignTx
  rw [hst]
  dsimp only
  rw [if_neg (by simp)]
  rw [← @replaceReviewer_notAssigned_iff s prID oldR newR]
  cases hrep : replaceReviewer s prID oldR newR with
  | error e =>
    cases e <;> simp
  | ok s2 =>
    dsimp only
    cases hug : userGet s2 newR with
    | none => simp
    | some u =>
      dsimp only
      by_cases hact : u.isActive
      · rw [if_pos hact]; simp
      · rw [if_neg hact]; simp

theorem prGet_prReviewers_update {s : DBState} {prID : String} {q : PullRequest}
    (X : List (String × String)) (h : prGet s prID = some q) :
    ∃ q2, prGet { s with prReviewers := X } prID = some q2 := by
  unfold prGet at h ⊢
  cases hr : prRowGet s prID with
  | none => rw [hr] at h; exact absurd h (by simp)
  | some r =>
    have hr2 : prRowGet { s with prReviewers := X } prID = some r := hr
    rw [hr2]
    exact ⟨_, rfl⟩

theorem ReassignPR_error_state {s : DBState} {prID oldR : String}
    {rand : List Nat} {e : ServiceErr}
    (h : (ReassignPR s prID oldR rand).1 = .error e) :
    (ReassignPR s prID oldR rand).2 = s := by
  unfold ReassignPR at h ⊢
  cases hq : prGet s prID with
  | none => rfl
  | some q =>
    rw [hq] at h
    dsimp only at h ⊢
    cases hsel : SelectReassignReviewers (getActiveByTeam s q.teamName)
        q.authorID q.assignedReviewersIDs rand with
    | none => rfl
    | some pair =>
      rw [hsel] at h
      obtain ⟨rs, r2⟩ := pair
      dsimp only at h ⊢
      cases rs with
      | nil => rfl
      | cons newR0 rest =>
        dsimp only at h ⊢
        cases htx : reassignTx s prID oldR newR0 with
        | error e2 => rfl
        | ok s2 =>
          rw [htx] at h
          dsimp only at h
          obtain ⟨hst, hold, hs2⟩ := reassignTx_ok htx
          obtain ⟨q2, hq2⟩ := prGet_prReviewers_update
            ((s.prReviewers.filter (fun rv => !(rv.1 == prID && rv.2 == oldR)))
              ++ [(prID, newR0)]) hq
          rw [hs2] at h
          rw [hq2] at h
          exact absurd h (by simp)

/-- C8: for an existing PR, once candidate selection has produced a
replacement, `ReassignPR` fails with `PRMerged` exactly on the in-transaction
status re-check when the status is not OPEN, fails with
`ReviewerNotAssigned` exactly when `oldReviewerID` is not in the reviewer
set (detected by the affected-row count of the combined
delete-and-insert `replaceReviewer` statement), and every failure leaves
the state unchanged. -/
theorem C8_reassignPR_tx_failures {s : DBState} {prID oldR : String}
    {q : PullRequest} {rand : List Nat} {newR0 : String} {rest : List String}
    {r2 : List Nat}
    (hq : prGet s prID = some q)
    (hsel : SelectReassignReviewers (getActiveByTeam s q.teamName) q.authorID
      q.assignedReviewersIDs rand = some (newR0 :: rest, r2)) :
    (q.status ≠ PRStatus.opened →
      ReassignPR s prID oldR rand = (.error .prMerged, s)) ∧
    (q.status = PRStatus.opened →
      ((ReassignPR s prID oldR rand).1 = .error .reviewerNotAssigned ↔
        oldR ∉ reviewersOf s prID)) ∧
    (∀ e, (ReassignPR s prID oldR rand).1 = .error e →
      (ReassignPR s prID oldR rand).2 = s) := by
  have hst := prGetStatus_eq_of_prGet hq
  refine ⟨?_, ?_, fun e he => ReassignPR_error_state he⟩
  · intro hne
    unfold ReassignPR
    rw [hq]
    dsimp only
    rw [hsel]
    dsimp only
    have htx : reassignTx s prID oldR newR0 = .error .prMerged := by
      unfold reassignTx
      rw [hst]
      dsimp only
      rw [if_pos hne]
    rw [htx]
  · intro hopen
    rw [hopen] at hst
    unfold ReassignPR
    rw [hq]
    dsimp only
    rw [hsel]
    dsimp only
    rw [← @reassignTx_rna_iff s prID oldR newR0 hst]
    cases htx : reassignTx s prID oldR newR0 with
    | error e2 =>
      dsimp only
      cases e2 <;> simp
    | ok s2 =>
      dsimp only
      obtain ⟨-, -, hs2⟩ := reassignTx_ok htx
      obtain ⟨q2, hq2⟩ := prGet_prReviewers_update
        ((s.prReviewers.filter (fun rv => !(rv.1 == prID && rv.2 == oldR)))
          ++ [(prID, newR0)]) hq
      rw [hs2, hq2]
      simp

/-- The pull request read from `c3state` by the C8 witness. -/
def c8q : PullRequest :=
  { pullRequestID := "p1", pullRequestName := "x", authorID := "u1",
    teamName := "A", status := .opened, assignedReviewersIDs := ["u2"],
    createdAt := 1, mergedAt := none }

/-- Witness for C8 on `c3state` with an unassigned `oldReviewerID = u9`. -/
theorem C8_reassignPR_tx_failures_witness :
    (c8q.status ≠ PRStatus.opened →
      ReassignPR c3state "p1" "u9" [] = (.error .prMerged, c3state)) ∧
    (c8q.status = PRStatus.opened →
      ((ReassignPR c3state "p1" "u9" []).1 = .error .reviewerNotAssigned ↔
        ("u9" : String) ∉ reviewersOf c3state "p1")) ∧
    (∀ e, (ReassignPR c3state "p1" "u9" []).1 = .error e →
      (ReassignPR c3state "p1" "u9" []).2 = c3state) :=
  @C8_reassignPR_tx_failures c3state "p1" "u9" c8q [] "u3" [] [] rfl rfl

/-! ### CreatePR characterization and C9 -/

theorem prCreate_ok {s s' : DBState} {row : PRRow}
    (h : prCreate s row = .ok s') :
    s' = { s with prs := s.prs ++ [row] } ∧
    ∀ r ∈ s.prs, r.pullRequestID ≠ row.pullRequestID := by
  unfold prCreate at h
  by_cases h1 : s.prs.any (fun r => r.pullRequestID == row.pullRequestID)
  · rw [if_pos h1] at h
    exact absurd h (by simp)
  · rw [if_neg h1] at h
    by_cases h2 : s.users.any (fun u => u.userID == row.authorID) &&
        s.teams.any (fun t => t == row.teamName)
    · rw [if_pos h2] at h
      injection h with h
      refine ⟨h.symm, ?_⟩
      intro r hr hc
      exact h1 (List.any_eq_true.mpr ⟨r, hr, by simp [hc]⟩)
    · rw [if_neg h2] at h
      exact absurd h (by simp)

theorem insertReviewer_ok {s s' : DBState} {prID userID : String}
    (h : insertReviewer s prID userID = .ok s') :
    s' = { s with prReviewers := s.prReviewers ++ [(prID, userID)] } ∧
    (prID, userID) ∉ s.prReviewers ∧
    (∃ r ∈ s.prs, r.pullRequestID = prID) ∧
    (∃ u ∈ s.users, u.userID = userID) := by
  unfold insertReviewer at h
  by_cases h1 : s.prReviewers.any (fun rv => rv.1 == prID && rv.2 == userID)
  · rw [if_pos h1] at h
    exact absurd h (by simp)
  · rw [if_neg h1] at h
    by_cases h2 : s.prs.any (fun r => r.pullRequestID == prID) &&
        s.users.any (fun u => u.userID == userID)
    · rw [if_pos h2] at h
      injection h with h
      rw [Bool.and_eq_true] at h2
      obtain ⟨r, hr, hrp⟩ := List.any_eq_true.mp h2.1
      obtain ⟨u, hu, hup⟩ := List.any_eq_true.mp h2.2
      refine ⟨h.symm, ?_, ⟨r, hr, by simpa using hrp⟩, ⟨u, hu, by simpa using hup⟩⟩
      intro hmem
      exact absurd (List.any_eq_true.mpr ⟨(prID, userID), hmem, by simp⟩) h1
    · rw [if_neg h2] at h
      exact absurd h (by simp)

theorem insertReviewersLoop_ok {prID : String} :
    ∀ {s s' : DBState} {rs : List String},
    insertReviewersLoop prID s rs = .ok s' →
    s'.teams = s.teams ∧ s'.users = s.users ∧ s'.prs = s.prs ∧
    s'.prReviewers = s.prReviewers ++ rs.map (fun r => (prID, r)) := by
  intro s s' rs
  induction rs generalizing s with
  | nil =>
    intro h
    rw [insertReviewersLoop] at h
    injection h with h
    subst h
    simp
  | cons r rest ih =>
    intro h
    rw [insertReviewersLoop] at h
    cases hins : insertReviewer s prID r with
    | error e =>
      rw [hins] at h
      cases e <;> exact absurd h (by simp)
    | ok s1 =>
      rw [hins] at h
      dsimp only at h
      obtain ⟨hs1, -, -, -⟩ := insertReviewer_ok hins
      obtain ⟨ht, hu, hp, hrv⟩ := ih h
      subst hs1
      refine ⟨ht, hu, hp, ?_⟩
      rw [hrv]
      simp

theorem verifyReviewersActive_ok {s : DBState} :
    ∀ {rs : List String}, verifyReviewersActive s rs = .ok () →
    ∀ r ∈ rs, ∃ u, userGet s r = some u ∧ u.isActive := by
  intro rs
  induction rs with
  | nil => intro _ r hr; exact absurd hr (by simp)
  | cons x rest ih =>
    intro h r hr
    rw [verifyReviewersActive] at h
    cases hug : userGet s x with
    | none => rw [hug] at h; exact absurd h (by simp)
    | some u =>
      rw [hug] at h
      dsimp only at h
      by_cases hact : u.isActive
      · rw [if_pos hact] at h
        rcases List.mem_cons.mp hr with rfl | hr2
        · exact ⟨u, hug, hact⟩
        · exact ih h r hr2
      · rw [if_neg hact] at h
        exact absurd h (by simp)

theorem createPRTx_ok {s s2 : DBState} {prID prName authorID teamName : String}
    {reviewers : List String} {now : Nat}
    (h : createPRTx s prID prName authorID teamName reviewers now = .ok s2) :
    s2.teams = s.teams ∧ s2.users = s.users ∧
    s2.prs = s.prs ++ [PRRow.mk prID prName authorID teamName .opened now none] ∧
    s2.prReviewers = s.prReviewers ++ reviewers.map (fun r => (prID, r)) ∧
    (∀ r ∈ s.prs, r.pullRequestID ≠ prID) ∧
    (∀ r ∈ reviewers, ∃ u, userGet s2 r = some u ∧ u.isActive) := by
  unfold createPRTx at h
  cases hc : prCreate s (PRRow.mk prID prName authorID teamName .opened now none) with
  | error e =>
    rw [hc] at h
    cases e <;> exact absurd h (by simp)
  | ok s1 =>
    rw [hc] at h
    dsimp only at h
    obtain ⟨hs1, hfresh⟩ := prCreate_ok hc
    cases hloop : insertReviewersLoop prID s1 reviewers with
    | error e => rw [hloop] at h; exact absurd h (by simp)
    | ok s1b =>
      rw [hloop] at h
      dsimp only at h
      cases hver : verifyReviewersActive s1b reviewers with
      | error e => rw [hver] at h; exact absurd h (by simp)
      | ok u =>
        rw [hver] at h
        dsimp only at h
        injection h with h
        subst h
        obtain ⟨ht, hu, hp, hrv⟩ := insertReviewersLoop_ok hloop
        subst hs1
        exact ⟨ht, hu, by simpa using hp, by simpa using hrv, hfresh,
          fun r hr => verifyReviewersActive_ok hver r hr⟩

theorem prRowGet_created {s s2 : DBState} {prID prName authorID teamName : String}
    {reviewers : List String} {now : Nat}
    (h : createPRTx s prID prName authorID teamName reviewers now = .ok s2) :
    prRowGet s2 prID = some (PRRow.mk prID prName authorID teamName .opened now none) := by
  obtain ⟨-, -, hp, -, hfresh, -⟩ := createPRTx_ok h
  unfold prRowGet
  rw [hp, List.find?_append]
  have hnone : s.prs.find? (fun r => r.pullRequestID == prID) = none := by
    rw [List.find?_eq_none]
    intro r hr
    simpa using hfresh r hr
  rw [hnone]
  simp

theorem CreatePR_error_state {s : DBState} {prID prName authorID : String}
    {rand : List Nat} {now : Nat} {e : ServiceErr}
    (h : (CreatePR s prID prName authorID rand now).1 = .error e) :
    (CreatePR s prID prName authorID rand now).2 = s := by
  unfold CreatePR at h ⊢
  cases hug : userGet s authorID with
  | none => rfl
  | some author =>
    rw [hug] at h
    dsimp only at h ⊢
    cases hsel : SelectReviewers (getActiveTeammates s authorID) rand with
    | none => rfl
    | some pair =>
      rw [hsel] at h
      obtain ⟨reviewers, r2⟩ := pair
      dsimp only at h ⊢
      cases htx : createPRTx s prID prName authorID author.teamName reviewers now with
      | error e2 => rfl
      | ok s2 =>
        rw [htx] at h
        dsimp only at h
        have hrow := prRowGet_created htx
        have hget : prGet s2 prID = some
            { pullRequestID := prID, pullRequestName := prName,
              authorID := authorID, teamName := author.teamName,
              status := .opened,
              assignedReviewersIDs := reviewersOf s2 prID,
              createdAt := now, mergedAt := none } := by
          unfold prGet
          rw [hrow]
          rfl
        rw [hget] at h
        exact absurd h (by simp)

theorem DeactivateTeam_error_state {s : DBState} {teamName : String}
    {rand : List Nat} {e : ServiceErr}
    (h : (DeactivateTeam s teamName rand).1 = .error e) :
    (DeactivateTeam s teamName rand).2 = s := by
  unfold DeactivateTeam at h ⊢
  by_cases hok : teamGetOk s teamName
  · rw [if_pos hok] at h ⊢
    dsimp only at h ⊢
    cases hloop : deactivateLoop teamName (deactivateAll s teamName)
        (getOpenPRsWithReviewersFromTeam (deactivateAll s teamName) teamName)
        rand with
    | error e2 => rfl
    | ok s2 =>
      rw [hloop] at h
      exact absurd h (by simp)
  · rw [if_neg hok]

/-- C9: whenever `CreatePR`, `ReassignPR` or `DeactivateTeam` returns an
error, the database state after the call is identical to the state before
it — no step of the multi-step sequence is partially committed. -/
theorem C9_error_atomicity :
    (∀ (s : DBState) (prID prName authorID : String) (rand : List Nat)
      (now : Nat) (e : ServiceErr),
      (CreatePR s prID prName authorID rand now).1 = .error e →
      (CreatePR s prID prName authorID rand now).2 = s) ∧
    (∀ (s : DBState) (prID oldReviewerID : String) (rand : List Nat)
      (e : ServiceErr),
      (ReassignPR s prID oldReviewerID rand).1 = .error e →
      (ReassignPR s prID oldReviewerID rand).2 = s) ∧
    (∀ (s : DBState) (teamName : String) (rand : List Nat) (e : ServiceErr),
      (DeactivateTeam s teamName rand).1 = .error e →
      (DeactivateTeam s teamName rand).2 = s) :=
  ⟨fun _ _ _ _ _ _ _ h => CreatePR_error_state h,
   fun _ _ _ _ _ h => ReassignPR_error_state h,
   fun _ _ _ _ h => DeactivateTeam_error_state h⟩

/-- Witness for C9: `CreatePR` with an unknown author fails on the empty
database and leaves it unchanged. -/
theorem C9_error_atomicity_witness :
    (CreatePR initState "p1" "x" "u1" [] 0).2 = initState :=
  C9_error_atomicity.1 initState "p1" "x" "u1" [] 0 .prAuthorNotFound rfl

/-! ### State-shape characterizations of the remaining operations -/

theorem updateStatusToMerged_ok_char {s s1 : DBState} {prID : String} {now : Nat}
    (h : updateStatusToMerged s prID now = .ok s1) :
    s1 = { s with prs := s.prs.map (fun r =>
      if r.pullRequestID == prID && r.status == PRStatus.opened then
        { r with status := .merged, mergedAt := some now }
      else r) } := by
  unfold updateStatusToMerged at h
  by_cases h1 : s.prs.any (fun r => r.pullRequestID == prID && r.status == PRStatus.opened)
  · rw [if_pos h1] at h
    injection h with h
    exact h.symm
  · rw [if_neg h1] at h
    exact absurd h (by simp)

theorem MergePR_state (s : DBState) (prID : String) (now : Nat) :
    (MergePR s prID now).2 = s ∨
    (MergePR s prID now).2 = { s with prs := s.prs.map (fun r =>
      if r.pullRequestID == prID && r.status == PRStatus.opened then
        { r with status := .merged, mergedAt := some now }
      else r) } := by
  unfold MergePR
  cases hpg : prGet s prID with
  | none => exact Or.inl rfl
  | some q =>
    dsimp only
    by_cases hq : q.status = PRStatus.merged
    · rw [if_pos hq]
      exact Or.inl rfl
    · rw [if_neg hq]
      cases hupd : updateStatusToMerged s prID now with
      | error e => exact Or.inl rfl
      | ok s1 =>
        dsimp only
        have hs1 := updateStatusToMerged_ok_char hupd
        cases hg2 : prGet s1 prID with
        | none => exact Or.inr hs1
        | some mergedPR => exact Or.inr hs1

theorem CreatePR_ok_char {s s1 : DBState} {prID prName authorID : String}
    {rand : List Nat} {now : Nat} {p : PullRequest}
    (h : CreatePR s prID prName authorID rand now = (.ok p, s1)) :
    ∃ author reviewers r2,
      userGet s authorID = some author ∧
      SelectReviewers (getActiveTeammates s authorID) rand = some (reviewers, r2) ∧
      createPRTx s prID prName authorID author.teamName reviewers now = .ok s1 := by
  unfold CreatePR at h
  cases hug : userGet s authorID with
  | none => rw [hug] at h; exact absurd h (by simp)
  | some author =>
    rw [hug] at h
    dsimp only at h
    cases hsel : SelectReviewers (getActiveTeammates s authorID) rand with
    | none => rw [hsel] at h; exact absurd h (by simp)
    | some pair =>
      rw [hsel] at h
      obtain ⟨reviewers, r2⟩ := pair
      dsimp only at h
      cases htx : createPRTx s prID prName authorID author.teamName reviewers now with
      | error e => rw [htx] at h; exact absurd h (by simp)
      | ok s2 =>
        rw [htx] at h
        dsimp only at h
        cases hg : prGet s2 prID with
        | none => rw [hg] at h; exact absurd h (by simp)
        | some fullPR =>
          rw [hg] at h
          dsimp only at h
          rw [Prod.mk.injEq] at h
          obtain ⟨-, rfl⟩ := h
          exact ⟨author, reviewers, r2, rfl, rfl, htx⟩

theorem CreatePR_state (s : DBState) (prID prName authorID : String)
    (rand : List Nat) (now : Nat) :
    (CreatePR s prID prName authorID rand now).2 = s ∨
    ∃ author reviewers r2,
      userGet s authorID = some author ∧
      SelectReviewers (getActiveTeammates s authorID) rand = some (reviewers, r2) ∧
      createPRTx s prID prName authorID author.teamName reviewers now =
        .ok (CreatePR s prID prName authorID rand now).2 := by
  cases hres : (CreatePR s prID prName authorID rand now).1 with
  | error e => exact Or.inl (CreatePR_error_state hres)
  | ok p =>
    have hfull : CreatePR s prID prName authorID rand now =
        (.ok p, (CreatePR s prID prName authorID rand now).2) := by
      rw [← hres]
    exact Or.inr (CreatePR_ok_char hfull)

theorem ReassignPR_state (s : DBState) (prID oldR : String) (rand : List Nat) :
    (ReassignPR s prID oldR rand).2 = s ∨
    ∃ q newR0, prGet s prID = some q ∧
      (∃ u ∈ getActiveByTeam s q.teamName, u.userID = newR0) ∧
      newR0 ≠ q.authorID ∧ newR0 ∉ q.assignedReviewersIDs ∧
      oldR ∈ reviewersOf s prID ∧
      (ReassignPR s prID oldR rand).2 = { s with prReviewers :=
        (s.prReviewers.filter (fun rv => !(rv.1 == prID && rv.2 == oldR)))
          ++ [(prID, newR0)] } := by
  cases hres : (ReassignPR s prID oldR rand).1 with
  | error e => exact Or.inl (ReassignPR_error_state hres)
  | ok pr =>
    obtain ⟨p, newR⟩ := pr
    have hfull : ReassignPR s prID oldR rand =
        (.ok (p, newR), (ReassignPR s prID oldR rand).2) := by
      rw [← hres]
    obtain ⟨q, hq, hcand, hne, hnass, hold, hopen, hs1⟩ := ReassignPR_ok_char hfull
    exact Or.inr ⟨q, newR, hq, hcand, hne, hnass, hold, hs1⟩

theorem replenishInsertLoop_ok {prID : String} :
    ∀ {s s' : DBState} {rs : List String},
    replenishInsertLoop prID s rs = .ok s' →
    s'.teams = s.teams ∧ s'.users = s.users ∧ s'.prs = s.prs ∧
    s'.prReviewers = s.prReviewers ++ rs.map (fun r => (prID, r)) := by
  intro s s' rs
  induction rs generalizing s with
  | nil =>
    intro h
    rw [replenishInsertLoop] at h
    injection h with h
    subst h
    simp
  | cons r rest ih =>
    intro h
    rw [replenishInsertLoop] at h
    cases hins : insertReviewer s prID r with
    | error e => rw [hins] at h; exact absurd h (by simp)
    | ok s1 =>
      rw [hins] at h
      dsimp only at h
      obtain ⟨hs1, -, -, -⟩ := insertReviewer_ok hins
      obtain ⟨ht, hu, hp, hrv⟩ := ih h
      subst hs1
      refine ⟨ht, hu, hp, ?_⟩
      rw [hrv]
      simp

theorem ReplenishReviewers_ok_char {s s2 : DBState} {prID : String}
    {rand r2 : List Nat}
    (h : ReplenishReviewers s prID rand = .ok (s2, r2)) :
    s2.teams = s.teams ∧ s2.users = s.users ∧ s2.prs = s.prs ∧
    (s2 = s ∨
      ∃ p rsel r3, prGet s prID = some p ∧ p.status = PRStatus.opened ∧
        p.assignedReviewersIDs.length < maxReviewers ∧
        SelectReassignReviewers (getActiveByTeam s p.teamName) p.authorID
          p.assignedReviewersIDs rand = some (rsel, r3) ∧
        s2.prReviewers = s.prReviewers ++
          (rsel.take (min (maxReviewers - p.assignedReviewersIDs.length)
            rsel.length)).map (fun r => (prID, r))) := by
  unfold ReplenishReviewers at h
  cases hpg : prGet s prID with
  | none =>
    rw [hpg] at h
    dsimp only at h
    injection h with h
    rw [Prod.mk.injEq] at h
    obtain ⟨rfl, -⟩ := h
    exact ⟨rfl, rfl, rfl, Or.inl rfl⟩
  | some p =>
    rw [hpg] at h
    dsimp only at h
    by_cases hst : p.status ≠ PRStatus.opened
    · rw [if_pos hst] at h
      injection h with h
      rw [Prod.mk.injEq] at h
      obtain ⟨rfl, -⟩ := h
      exact ⟨rfl, rfl, rfl, Or.inl rfl⟩
    · rw [if_neg hst] at h
      push_neg at hst
      by_cases hcnt : maxReviewers ≤ p.assignedReviewersIDs.length
      · rw [if_pos hcnt] at h
        injection h with h
        rw [Prod.mk.injEq] at h
        obtain ⟨rfl, -⟩ := h
        exact ⟨rfl, rfl, rfl, Or.inl rfl⟩
      · rw [if_neg hcnt] at h
        cases hsel : SelectReassignReviewers (getActiveByTeam s p.teamName)
            p.authorID p.assignedReviewersIDs rand with
        | none =>
          rw [hsel] at h
          dsimp only at h
          injection h with h
          rw [Prod.mk.injEq] at h
          obtain ⟨rfl, -⟩ := h
          exact ⟨rfl, rfl, rfl, Or.inl rfl⟩
        | some pair =>
          rw [hsel] at h
          obtain ⟨rsel, r3⟩ := pair
          dsimp only at h
          by_cases hlen : rsel.length = 0
          · rw [if_pos hlen] at h
            injection h with h
            rw [Prod.mk.injEq] at h
            obtain ⟨rfl, -⟩ := h
            exact ⟨rfl, rfl, rfl, Or.inl rfl⟩
          · rw [if_neg hlen] at h
            cases hloop : replenishInsertLoop prID s
                (rsel.take (min (maxReviewers - p.assignedReviewersIDs.length)
                  rsel.length)) with
            | error e => rw [hloop] at h; exact absurd h (by simp)
            | ok s1b =>
              rw [hloop] at h
              dsimp only at h
              injection h with h
              rw [Prod.mk.injEq] at h
              obtain ⟨hs2, -⟩ := h
              subst hs2
              obtain ⟨ht, hu, hp2, hrv⟩ := replenishInsertLoop_ok hloop
              exact ⟨ht, hu, hp2, Or.inr ⟨p, rsel, r3, rfl, hst,
                Nat.lt_of_not_le hcnt, hsel, hrv⟩⟩

theorem userCreate_ok {s s' : DBState} {u : User}
    (h : userCreate s u = .ok s') :
    s' = { s with users := s.users ++ [u] } ∧
    ∀ v ∈ s.users, v.userID ≠ u.userID := by
  unfold userCreate at h
  by_cases h1 : s.users.any (fun v => v.userID == u.userID)
  · rw [if_pos h1] at h
    exact absurd h (by simp)
  · rw [if_neg h1] at h
    by_cases h2 : s.teams.any (fun t => t == u.teamName)
    · rw [if_pos h2] at h
      injection h with h
      refine ⟨h.symm, ?_⟩
      intro v hv hc
      exact h1 (List.any_eq_true.mpr ⟨v, hv, by simp [hc]⟩)
    · rw [if_neg h2] at h
      exact absurd h (by simp)

theorem userUpdate_ok {s s' : DBState} {u : User}
    (h : userUpdate s u = .ok s') :
    s' = { s with users := s.users.map (fun v =>
      if v.userID == u.userID then { v with username := u.username, teamName := u.teamName, isActive := u.isActive }
      else v) } := by
  unfold userUpdate at h
  by_cases h1 : s.users.any (fun v => v.userID == u.userID)
  · rw [if_pos h1] at h
    by_cases h2 : s.teams.any (fun t => t == u.teamName)
    · rw [if_pos h2] at h
      injection h with h
      exact h.symm
    · rw [if_neg h2] at h
      exact absurd h (by simp)
  · rw [if_neg h1] at h
    exact absurd h (by simp)

theorem userID_update_aux (v u : User) :
    (if v.userID == u.userID then { v with username := u.username, teamName := u.teamName, isActive := u.isActive } else v).userID = v.userID := by
  by_cases hc : v.userID == u.userID
  · rw [if_pos hc]
  · rw [if_neg hc]

theorem userIDs_update_aux (l : List User) (u : User) :
    (l.map (fun v =>
      if v.userID == u.userID then { v with username := u.username, teamName := u.teamName, isActive := u.isActive } else v)).map
        User.userID = l.map User.userID := by
  rw [List.map_map]
  refine List.map_congr_left ?_
  intro v hv
  exact userID_update_aux v u

theorem createTeamMembersLoop_ok {teamName : String} :
    ∀ {s s' : DBState} {members : List TeamMember},
    createTeamMembersLoop teamName s members = .ok s' →
    s'.teams = s.teams ∧ s'.prs = s.prs ∧ s'.prReviewers = s.prReviewers ∧
    (∀ v ∈ s.users, ∃ v2 ∈ s'.users, v2.userID = v.userID) ∧
    ((s.users.map User.userID).Nodup → (s'.users.map User.userID).Nodup) := by
  intro s s' members
  induction members generalizing s with
  | nil =>
    intro h
    rw [createTeamMembersLoop] at h
    injection h with h
    subst h
    exact ⟨rfl, rfl, rfl, fun v hv => ⟨v, hv, rfl⟩, id⟩
  | cons m rest ih =>
    intro h
    rw [createTeamMembersLoop] at h
    cases hug : userGet s m.userID with
    | none =>
      rw [hug] at h
      dsimp only at h
      cases hc : userCreate s (User.mk m.userID m.username teamName m.isActive) with
      | error e => rw [hc] at h; exact absurd h (by simp)
      | ok s1 =>
        rw [hc] at h
        dsimp only at h
        obtain ⟨hs1, hfresh⟩ := userCreate_ok hc
        obtain ⟨ht, hp, hrv, hsup, hnd⟩ := ih h
        subst hs1
        refine ⟨ht, hp, hrv, ?_, ?_⟩
        · intro v hv
          exact hsup v (by simp [hv])
        · intro hnd0
          refine hnd ?_
          simp only [List.map_append, List.map_cons, List.map_nil]
          rw [List.nodup_append]
          refine ⟨hnd0, by simp, ?_⟩
          intro x hx
          simp only [List.mem_map] at hx
          obtain ⟨v, hv, rfl⟩ := hx
          simp only [List.mem_singleton]
          intro hc2
          exact hfresh v hv hc2
    | some u0 =>
      rw [hug] at h
      dsimp only at h
      cases hupd : userUpdate s (User.mk m.userID m.username teamName m.isActive) with
      | error e => rw [hupd] at h; exact absurd h (by simp)
      | ok s1 =>
        rw [hupd] at h
        dsimp only at h
        have hs1 := userUpdate_ok hupd
        obtain ⟨ht, hp, hrv, hsup, hnd⟩ := ih h
        subst hs1
        refine ⟨ht, hp, hrv, ?_, ?_⟩
        · intro v hv
          obtain ⟨v2, hv2, hid⟩ := hsup _ (List.mem_map_of_mem _ hv)
          exact ⟨v2, hv2, hid.trans (userID_update_aux v _)⟩
        · intro hnd0
          refine hnd ?_
          rw [userIDs_update_aux]
          exact hnd0

theorem CreateTeam_state (s : DBState) (teamName : String)
    (members : List TeamMember) :
    ((CreateTeam s teamName members).2.prs = s.prs ∧
     (CreateTeam s teamName members).2.prReviewers = s.prReviewers) ∧
    (∀ v ∈ s.users, ∃ v2 ∈ (CreateTeam s teamName members).2.users,
      v2.userID = v.userID) ∧
    ((s.users.map User.userID).Nodup →
      ((CreateTeam s teamName members).2.users.map User.userID).Nodup) := by
  unfold CreateTeam
  by_cases hex : teamExistsQ s teamName
  · rw [if_pos hex]
    exact ⟨⟨rfl, rfl⟩, fun v hv => ⟨v, hv, rfl⟩, id⟩
  · rw [if_neg hex]
    unfold teamCreate
    rw [if_neg hex]
    dsimp only
    cases hloop : createTeamMembersLoop teamName
        { s with teams := s.teams ++ [teamName] } members with
    | error e =>
      exact ⟨⟨rfl, rfl⟩, fun v hv => ⟨v, hv, rfl⟩, id⟩
    | ok s2 =>
      obtain ⟨ht, hp, hrv, hsup, hnd⟩ := createTeamMembersLoop_ok hloop
      exact ⟨⟨hp, hrv⟩, hsup, hnd⟩

theorem foldl_deleteReviewer_state (prID : String) :
    ∀ (revIDs : List String) (s : DBState),
    (revIDs.foldl (fun acc rid => deleteReviewer acc prID rid) s).teams = s.teams ∧
    (revIDs.foldl (fun acc rid => deleteReviewer acc prID rid) s).users = s.users ∧
    (revIDs.foldl (fun acc rid => deleteReviewer acc prID rid) s).prs = s.prs ∧
    ∀ rv ∈ (revIDs.foldl (fun acc rid => deleteReviewer acc prID rid) s).prReviewers,
      rv ∈ s.prReviewers := by
  intro revIDs
  induction revIDs with
  | nil => intro s; exact ⟨rfl, rfl, rfl, fun rv h => h⟩
  | cons r rest ih =>
    intro s
    simp only [List.foldl_cons]
    obtain ⟨ht, hu, hp, hrv⟩ := ih (deleteReviewer s prID r)
    refine ⟨ht, hu, hp, ?_⟩
    intro rv h
    have := hrv rv h
    unfold deleteReviewer at this
    simp only [List.mem_filter] at this
    exact this.1

theorem deactivateLoop_state {teamName : String} :
    ∀ {pairs : List (String × List String)} {s s2 : DBState} {rand : List Nat},
    deactivateLoop teamName s pairs rand = .ok s2 →
    s2.teams = s.teams ∧ s2.users = s.users ∧ s2.prs = s.prs := by
  intro pairs
  induction pairs with
  | nil =>
    intro s s2 rand h
    rw [deactivateLoop] at h
    injection h with h
    subst h
    exact ⟨rfl, rfl, rfl⟩
  | cons pair rest ih =>
    intro s s2 rand h
    obtain ⟨prID, revIDs⟩ := pair
    rw [deactivateLoop] at h
    obtain ⟨hft, hfu, hfp, -⟩ := foldl_deleteReviewer_state prID revIDs s
    cases hpg : prGet (revIDs.foldl (fun acc rid => deleteReviewer acc prID rid) s)
        prID with
    | none => rw [hpg] at h; exact absurd h (by simp)
    | some p =>
      rw [hpg] at h
      dsimp only at h
      by_cases hteam : p.teamName == teamName
      · rw [if_pos hteam] at h
        obtain ⟨ht, hu, hp⟩ := ih h
        exact ⟨ht.trans hft, hu.trans hfu, hp.trans hfp⟩
      · rw [if_neg hteam] at h
        cases hrep : ReplenishReviewers
            (revIDs.foldl (fun acc rid => deleteReviewer acc prID rid) s) prID
            rand with
        | error e => rw [hrep] at h; exact absurd h (by simp)
        | ok pair2 =>
          rw [hrep] at h
          obtain ⟨s3, rand3⟩ := pair2
          dsimp only at h
          obtain ⟨ht3, hu3, hp3, -⟩ := ReplenishReviewers_ok_char hrep
          obtain ⟨ht, hu, hp⟩ := ih h
          exact ⟨(ht.trans ht3).trans hft, (hu.trans hu3).trans hfu,
            (hp.trans hp3).trans hfp⟩

theorem DeactivateTeam_eq (s : DBState) (teamName : String) (rand : List Nat)
    (hok : teamGetOk s teamName = true) :
    DeactivateTeam s teamName rand =
      (match deactivateLoop teamName (deactivateAll s teamName)
          (getOpenPRsWithReviewersFromTeam (deactivateAll s teamName) teamName)
          rand with
        | .error e => (.error e, s)
        | .ok s2 => (.ok (), s2)) := by
  unfold DeactivateTeam
  rw [if_pos hok]

theorem DeactivateTeam_ok_char {s s2 : DBState} {teamName : String}
    {rand : List Nat}
    (h : DeactivateTeam s teamName rand = (.ok (), s2)) :
    teamGetOk s teamName = true ∧
    deactivateLoop teamName (deactivateAll s teamName)
      (getOpenPRsWithReviewersFromTeam (deactivateAll s teamName) teamName)
      rand = .ok s2 := by
  by_cases hok : teamGetOk s teamName
  · rw [DeactivateTeam_eq s teamName rand hok] at h
    cases hloop : deactivateLoop teamName (deactivateAll s teamName)
        (getOpenPRsWithReviewersFromTeam (deactivateAll s teamName) teamName)
        rand with
    | error e =>
      rw [hloop] at h
      exact absurd h (by simp)
    | ok s3 =>
      rw [hloop] at h
      dsimp only at h
      rw [Prod.mk.injEq] at h
      obtain ⟨-, rfl⟩ := h
      exact ⟨hok, rfl⟩
  · unfold DeactivateTeam at h
    rw [if_neg hok] at h
    exact absurd h (by simp)

/-! ### PR-table shape of every engine step; C6 -/

theorem prRowGet_append {s : DBState} {row : PRRow} {id0 : String} {r : PRRow}
    (hr : prRowGet s id0 = some r) :
    prRowGet { s with prs := s.prs ++ [row] } id0 = some r := by
  unfold prRowGet at hr ⊢
  rw [List.find?_append, hr]
  rfl

theorem prRowGet_map_merge_any {s : DBState} {prID0 prID : String} {now : Nat}
    {r0 : PRRow} (hr : prRowGet s prID0 = some r0) :
    prRowGet { s with prs := s.prs.map (fun r =>
        if r.pullRequestID == prID && r.status == PRStatus.opened then
          { r with status := .merged, mergedAt := some now }
        else r) } prID0 =
    some (if r0.pullRequestID == prID && r0.status == PRStatus.opened then
          { r0 with status := .merged, mergedAt := some now }
        else r0) := by
  unfold prRowGet at hr ⊢
  simp only [List.find?_map]
  have hpred : ((fun r : PRRow => r.pullRequestID == prID0) ∘ (fun r =>
      if r.pullRequestID == prID && r.status == PRStatus.opened then
        { r with status := PRStatus.merged, mergedAt := some now }
      else r)) = (fun r : PRRow => r.pullRequestID == prID0) := by
    funext r
    by_cases hc : r.pullRequestID == prID && r.status == PRStatus.opened
    · simp [Function.comp, hc]
    · simp [Function.comp, hc]
  rw [hpred, hr]
  simp

theorem Step_prs_shape {s s2 : DBState} (h : Step s s2) :
    s2.prs = s.prs ∨
    (∃ row : PRRow, s2.prs = s.prs ++ [row] ∧
      row.status = PRStatus.opened ∧ row.mergedAt = none) ∨
    (∃ (prID : String) (now : Nat), s2.prs = s.prs.map (fun r =>
      if r.pullRequestID == prID && r.status == PRStatus.opened then
        { r with status := .merged, mergedAt := some now }
      else r)) := by
  cases h with
  | createTeam teamName members =>
    exact Or.inl (CreateTeam_state s teamName members).1.1
  | createPR prID prName authorID rand now =>
    rcases CreatePR_state s prID prName authorID rand now with hs | ⟨author, reviewers, r2, -, -, htx⟩
    · exact Or.inl (congrArg DBState.prs hs)
    · obtain ⟨-, -, hp, -, -, -⟩ := createPRTx_ok htx
      exact Or.inr (Or.inl ⟨PRRow.mk prID prName authorID author.teamName
        .opened now none, hp, rfl, rfl⟩)
  | mergePR prID now =>
    rcases MergePR_state s prID now with hs | hs
    · exact Or.inl (congrArg DBState.prs hs)
    · exact Or.inr (Or.inr ⟨prID, now, congrArg DBState.prs hs⟩)
  | reassignPR prID oldR rand =>
    rcases ReassignPR_state s prID oldR rand with hs | ⟨q, newR0, -, -, -, -, -, hs⟩
    · exact Or.inl (congrArg DBState.prs hs)
    · rw [hs]
      exact Or.inl rfl
  | replenish prID rand s2 rand2 hrep =>
    exact Or.inl (ReplenishReviewers_ok_char hrep).2.2.1
  | deactivateTeam teamName rand =>
    cases hres : (DeactivateTeam s teamName rand).1 with
    | error e =>
      exact Or.inl (congrArg DBState.prs (DeactivateTeam_error_state hres))
    | ok u =>
      have hfull : DeactivateTeam s teamName rand =
          (.ok (), (DeactivateTeam s teamName rand).2) := by
        rw [← hres]
      obtain ⟨-, hloop⟩ := DeactivateTeam_ok_char hfull
      obtain ⟨-, -, hp⟩ := deactivateLoop_state hloop
      exact Or.inl hp

/-- C6: a pull request's status only ever moves from OPEN to MERGED across
engine operations, and in every reachable state `merged_at` is set exactly
on MERGED rows (creation stamps OPEN with null `merged_at`; the only
status update stamps MERGED and `merged_at` together, guarded by
`status = OPEN`). -/
theorem C6_status_monotonic_mergedAt :
    (∀ s s2 : DBState, Step s s2 → ∀ prID : String,
      prGetStatus s prID = some PRStatus.merged →
      prGetStatus s2 prID = some PRStatus.merged) ∧
    (∀ s : DBState, Reachable s →
      ∀ r ∈ s.prs, r.mergedAt.isSome ↔ r.status = PRStatus.merged) := by
  constructor
  · intro s s2 hstep prID hmerged
    unfold prGetStatus at hmerged
    cases hr : prRowGet s prID with
    | none => rw [hr] at hmerged; exact absurd hmerged (by simp)
    | some r =>
      rw [hr] at hmerged
      simp only [Option.map_some'] at hmerged
      injection hmerged with hmerged
      rcases Step_prs_shape hstep with hs | ⟨row, hs, -, -⟩ | ⟨prID2, now, hs⟩
      · have : prRowGet s2 prID = some r := by
          unfold prRowGet at hr ⊢
          rw [hs]
          exact hr
        unfold prGetStatus
        rw [this]
        simp [hmerged]
      · have h2 : prRowGet { s with prs := s.prs ++ [row] } prID = some r :=
          prRowGet_append hr
        have : prRowGet s2 prID = some r := by
          unfold prRowGet at h2 ⊢
          rw [hs]
          exact h2
        unfold prGetStatus
        rw [this]
        simp [hmerged]
      · have h2 := @prRowGet_map_merge_any s prID prID2 now r hr
        rw [if_neg (by simp [hmerged])] at h2
        have : prRowGet s2 prID = some r := by
          unfold prRowGet at h2 ⊢
          rw [hs]
          exact h2
        unfold prGetStatus
        rw [this]
        simp [hmerged]
  · intro s hreach
    induction hreach with
    | init => intro r hr; exact absurd hr (by simp [initState])
    | step hr0 hstep ih =>
      intro r hr
      rcases Step_prs_shape hstep with hs | ⟨row, hs, hrow1, hrow2⟩ | ⟨prID2, now, hs⟩
      · exact ih r (hs ▸ hr)
      · rw [hs] at hr
        rcases List.mem_append.mp hr with hin | hin
        · exact ih r hin
        · have : r = row := List.mem_singleton.mp hin
          subst this
          rw [hrow1, hrow2]
          simp
      · rw [hs] at hr
        simp only [List.mem_map] at hr
        obtain ⟨r0, hr0mem, rfl⟩ := hr
        by_cases hc : r0.pullRequestID == prID2 && r0.status == PRStatus.opened
        · rw [if_pos hc]
          simp
        · rw [if_neg hc]
          exact ih r0 hr0mem

/-- Witness for C6: re-merging an already merged PR keeps it MERGED, and
the `merged_at` invariant holds in the (reachable) empty database. -/
theorem C6_status_monotonic_mergedAt_witness :
    prGetStatus (MergePR c5merged "p1" 9).2 "p1" = some PRStatus.merged ∧
    (∀ r ∈ initState.prs, r.mergedAt.isSome ↔ r.status = PRStatus.merged) :=
  ⟨C6_status_monotonic_mergedAt.1 c5merged (MergePR c5merged "p1" 9).2
    (Step.mergePR c5merged "p1" 9) "p1" rfl,
   C6_status_monotonic_mergedAt.2 initState Reachable.init⟩

/-! ### Reviewer-list helpers for the invariant proofs -/

/-- The reviewer ids attached to `prID` among a raw list of join rows. -/
def revsOfList (l : List (String × String)) (prID : String) : List String :=
  (l.filter (fun rv => rv.1 == prID)).map Prod.snd

theorem reviewersOf_eq_revsOfList (s : DBState) (prID : String) :
    reviewersOf s prID = revsOfList s.prReviewers prID := rfl

theorem revsOfList_append (l1 l2 : List (String × String)) (prID : String) :
    revsOfList (l1 ++ l2) prID = revsOfList l1 prID ++ revsOfList l2 prID := by
  unfold revsOfList
  rw [List.filter_append, List.map_append]

theorem mem_revsOfList {l : List (String × String)} {prID x : String} :
    x ∈ revsOfList l prID ↔ (prID, x) ∈ l := by
  unfold revsOfList
  simp only [List.mem_map, List.mem_filter, beq_iff_eq]
  constructor
  · rintro ⟨⟨a, b⟩, ⟨hm, rfl⟩, rfl⟩
    exact hm
  · intro hm
    exact ⟨(prID, x), ⟨hm, rfl⟩, rfl⟩

theorem revsOfList_pairs_self (rs : List String) (prID : String) :
    revsOfList (rs.map (fun r => (prID, r))) prID = rs := by
  unfold revsOfList
  induction rs with
  | nil => rfl
  | cons r rest ih =>
    simp only [List.map_cons, List.filter_cons]
    rw [if_pos (by simp)]
    simp only [List.map_cons]
    rw [ih]

theorem revsOfList_pairs_other {p prID : String} (h : p ≠ prID)
    (rs : List String) :
    revsOfList (rs.map (fun r => (prID, r))) p = [] := by
  unfold revsOfList
  induction rs with
  | nil => rfl
  | cons r rest ih =>
    simp only [List.map_cons, List.filter_cons]
    rw [if_neg (by simpa using h.symm)]
    exact ih


theorem revsOfList_sublist {l1 l2 : List (String × String)} (h : l1.Sublist l2)
    (prID : String) : (revsOfList l1 prID).Sublist (revsOfList l2 prID) :=
  List.Sublist.map Prod.snd (List.Sublist.filter _ h)

theorem revsOfList_filterOld_self (l : List (String × String))
    (prID oldR : String) :
    revsOfList (l.filter (fun rv => !(rv.1 == prID && rv.2 == oldR))) prID =
    (revsOfList l prID).filter (fun x => !(x == oldR)) := by
  induction l with
  | nil => rfl
  | cons rv rest ih =>
    obtain ⟨a, b⟩ := rv
    by_cases ha : a = prID <;> by_cases hb : b = oldR <;>
      simp_all [revsOfList, List.filter_cons]

theorem revsOfList_filterOld_other {p prID : String} (h : p ≠ prID)
    (l : List (String × String)) (oldR : String) :
    revsOfList (l.filter (fun rv => !(rv.1 == prID && rv.2 == oldR))) p =
    revsOfList l p := by
  induction l with
  | nil => rfl
  | cons rv rest ih =>
    obtain ⟨a, b⟩ := rv
    by_cases ha : a = prID <;> by_cases hab : a = p <;> by_cases hb : b = oldR <;>
      simp_all [revsOfList, List.filter_cons]

/-! ### Well-formedness preservation -/

theorem nodup_map_inj {α β : Type} {f : α → β} :
    ∀ {l : List α}, (l.map f).Nodup →
    ∀ a ∈ l, ∀ b ∈ l, f a = f b → a = b := by
  intro l
  induction l with
  | nil => intro _ a ha; exact absurd ha (by simp)
  | cons x xs ih =>
    intro h a ha b hb hfab
    simp only [List.map_cons, List.nodup_cons] at h
    obtain ⟨hnotin, hnd⟩ := h
    rcases List.mem_cons.mp ha with rfl | ha2 <;>
      rcases List.mem_cons.mp hb with rfl | hb2
    · rfl
    · exact absurd (hfab ▸ List.mem_map_of_mem f hb2) hnotin
    · exact absurd (hfab ▸ List.mem_map_of_mem f ha2) hnotin
    · exact ih hnd a ha2 b hb2 hfab

theorem getActiveByTeam_mem {s : DBState} {t : String} {u : User} :
    u ∈ getActiveByTeam s t ↔ u ∈ s.users ∧ u.teamName = t ∧ u.isActive = true := by
  unfold getActiveByTeam
  simp [List.mem_filter]

theorem getActiveByTeam_ids_nodup {s : DBState} (t : String)
    (h1 : (s.users.map User.userID).Nodup) :
    ((getActiveByTeam s t).map User.userID).Nodup :=
  List.Nodup.sublist (List.Sublist.map User.userID (List.filter_sublist _)) h1

theorem getActiveTeammates_mem {s : DBState} {uid : String} {u : User}
    (h : u ∈ getActiveTeammates s uid) :
    u ∈ s.users ∧ u.userID ≠ uid ∧ u.isActive = true := by
  unfold getActiveTeammates at h
  cases hug : userGet s uid with
  | none => rw [hug] at h; exact absurd h (by simp)
  | some u1 =>
    rw [hug] at h
    simp only [List.mem_filter, Bool.and_eq_true, bne_iff_ne, beq_iff_eq] at h
    exact ⟨h.1, h.2.1.2, h.2.2⟩

theorem getActiveTeammates_ids_nodup {s : DBState} (uid : String)
    (h1 : (s.users.map User.userID).Nodup) :
    ((getActiveTeammates s uid).map User.userID).Nodup := by
  unfold getActiveTeammates
  cases hug : userGet s uid with
  | none => simp
  | some u1 =>
    exact List.Nodup.sublist
      (List.Sublist.map User.userID (List.filter_sublist _)) h1

theorem pairs_nodup {prID : String} {rs : List String} (h : rs.Nodup) :
    (rs.map (fun r => (prID, r))).Nodup := by
  refine List.Nodup.map ?_ h
  intro a b hab
  simpa using hab

theorem prRow_unique {s : DBState}
    (h2 : (s.prs.map PRRow.pullRequestID).Nodup) {r r0 : PRRow}
    (hr : r ∈ s.prs) (hr0 : r0 ∈ s.prs)
    (heq : r.pullRequestID = r0.pullRequestID) : r = r0 :=
  nodup_map_inj h2 r hr r0 hr0 heq

theorem prIDs_map_merge (l : List PRRow) (prID : String) (now : Nat) :
    (l.map (fun r =>
      if r.pullRequestID == prID && r.status == PRStatus.opened then
        { r with status := .merged, mergedAt := some now }
      else r)).map PRRow.pullRequestID = l.map PRRow.pullRequestID := by
  rw [List.map_map]
  refine List.map_congr_left ?_
  intro r hr
  by_cases hc : r.pullRequestID == prID && r.status == PRStatus.opened
  · simp only [Function.comp_apply, if_pos hc]
  · simp only [Function.comp_apply, if_neg hc]

theorem WF_CreateTeam {s : DBState} (teamName : String)
    (members : List TeamMember) (hwf : WF s) :
    WF (CreateTeam s teamName members).2 := by
  obtain ⟨⟨hprs, hrv⟩, hsup, hnd⟩ := CreateTeam_state s teamName members
  obtain ⟨h1, h2, h3, h4, h5, h6⟩ := hwf
  refine ⟨hnd h1, ?_, ?_, ?_, ?_, ?_⟩
  · rw [hprs]; exact h2
  · rw [hrv]; exact h3
  · intro rv hmem
    rw [hrv] at hmem
    obtain ⟨⟨r, hr, hrid⟩, ⟨u, hu, huid⟩⟩ := h4 rv hmem
    obtain ⟨v2, hv2, hvid⟩ := hsup u hu
    exact ⟨⟨r, by rw [hprs]; exact hr, hrid⟩, ⟨v2, hv2, hvid.trans huid⟩⟩
  · intro r hr hst
    rw [hprs] at hr
    have h5r := h5 r hr hst
    rw [reviewersOf_eq_revsOfList, hrv, ← reviewersOf_eq_revsOfList]
    exact h5r
  · intro r hr
    rw [hprs] at hr
    exact h6 r hr

theorem WF_MergePR {s : DBState} (prID : String) (now : Nat) (hwf : WF s) :
    WF (MergePR s prID now).2 := by
  rcases MergePR_state s prID now with hs | hs
  · rw [hs]; exact hwf
  · rw [hs]
    obtain ⟨h1, h2, h3, h4, h5, h6⟩ := hwf
    refine ⟨h1, ?_, h3, ?_, ?_, ?_⟩
    · show ((s.prs.map _).map PRRow.pullRequestID).Nodup
      rw [prIDs_map_merge]
      exact h2
    · intro rv hmem
      obtain ⟨⟨r, hr, hrid⟩, hu⟩ := h4 rv hmem
      refine ⟨⟨(if r.pullRequestID == prID && r.status == PRStatus.opened then
        { r with status := .merged, mergedAt := some now } else r),
        List.mem_map_of_mem _ hr, ?_⟩, hu⟩
      by_cases hc : r.pullRequestID == prID && r.status == PRStatus.opened
      · rw [if_pos hc]; exact hrid
      · rw [if_neg hc]; exact hrid
    · intro r2 hr2 hst
      simp only [List.mem_map] at hr2
      obtain ⟨r0, hr0, rfl⟩ := hr2
      by_cases hc : r0.pullRequestID == prID && r0.status == PRStatus.opened
      · rw [if_pos hc] at hst ⊢
        exact absurd hst (by simp)
      · rw [if_neg hc] at hst ⊢
        exact h5 r0 hr0 hst
    · intro r2 hr2
      simp only [List.mem_map] at hr2
      obtain ⟨r0, hr0, rfl⟩ := hr2
      by_cases hc : r0.pullRequestID == prID && r0.status == PRStatus.opened
      · rw [if_pos hc]
        simp
      · rw [if_neg hc]
        exact h6 r0 hr0

theorem WF_Replenish {s s2 : DBState} {prID : String} {rand r2 : List Nat}
    (hwf : WF s) (h : ReplenishReviewers s prID rand = .ok (s2, r2)) :
    WF s2 := by
  obtain ⟨ht, hu, hp, hcase⟩ := ReplenishReviewers_ok_char h
  rcases hcase with rfl | ⟨p, rsel, r3, hpg, hst, hcnt, hsel, hrv⟩
  · exact hwf
  obtain ⟨h1, h2, h3, h4, h5, h6⟩ := hwf
  obtain ⟨r0, hr0, hfields⟩ := prGet_eq_some hpg
  obtain ⟨hr0mem, hr0id⟩ := prRowGet_eq_some hr0
  have hrevs : p.assignedReviewersIDs = reviewersOf s prID :=
    hfields.2.2.2.2.2.1
  have hpauthor : p.authorID = r0.authorID := hfields.2.2.1
  have hcand_nodup := getActiveByTeam_ids_nodup (s := s) p.teamName h1
  have hselspec := SelectReassignReviewers_spec hcand_nodup hsel
  have hselmem := SelectReassignReviewers_mem hsel
  have htake_sub : (rsel.take (min (maxReviewers - p.assignedReviewersIDs.length)
      rsel.length)).Sublist rsel := List.take_sublist _ _
  have htake_nodup := List.Nodup.sublist htake_sub hselspec.1
  have htake_mem : ∀ x ∈ rsel.take (min (maxReviewers -
      p.assignedReviewersIDs.length) rsel.length),
      ∃ u ∈ getActiveByTeam s p.teamName, u.userID = x ∧
        x ≠ p.authorID ∧ x ∉ p.assignedReviewersIDs :=
    fun x hx => hselmem x (htake_sub.mem hx)
  have htake_len : (rsel.take (min (maxReviewers -
      p.assignedReviewersIDs.length) rsel.length)).length ≤
      maxReviewers - p.assignedReviewersIDs.length := by
    rw [List.length_take]
    exact le_trans (min_le_left _ _) (min_le_left _ _)
  refine ⟨?_, ?_, ?_, ?_, ?_, ?_⟩
  · rw [hu]; exact h1
  · rw [hp]; exact h2
  · rw [hrv, List.nodup_append]
    refine ⟨h3, pairs_nodup htake_nodup, ?_⟩
    intro rv hrv1 hrv2
    simp only [List.mem_map] at hrv2
    obtain ⟨x, hx, rfl⟩ := hrv2
    obtain ⟨u2, hu2, huid, hne, hnass⟩ := htake_mem x hx
    exact hnass (hrevs ▸ mem_reviewersOf.mpr hrv1)
  · intro rv hmem
    rw [hrv] at hmem
    rcases List.mem_append.mp hmem with hin | hin
    · obtain ⟨⟨r, hr, hrid⟩, ⟨u2, hu2, huid⟩⟩ := h4 rv hin
      exact ⟨⟨r, by rw [hp]; exact hr, hrid⟩,
        ⟨u2, by rw [hu]; exact hu2, huid⟩⟩
    · simp only [List.mem_map] at hin
      obtain ⟨x, hx, rfl⟩ := hin
      obtain ⟨u2, hu2, huid, -, -⟩ := htake_mem x hx
      exact ⟨⟨r0, by rw [hp]; exact hr0mem, hr0id⟩,
        ⟨u2, by rw [hu]; exact (getActiveByTeam_mem.mp hu2).1, huid⟩⟩
  · intro r hr hstat
    rw [hp] at hr
    rw [reviewersOf_eq_revsOfList, hrv, revsOfList_append]
    by_cases hid : r.pullRequestID = prID
    · have hr_eq : r = r0 := prRow_unique h2 hr hr0mem (hid.trans hr0id.symm)
      subst hr_eq
      rw [hid, revsOfList_pairs_self]
      have hlen_old : (revsOfList s.prReviewers prID).length =
          p.assignedReviewersIDs.length := by
        rw [hrevs, reviewersOf_eq_revsOfList]
      have h5r := h5 r hr hstat
      rw [reviewersOf_eq_revsOfList, hid] at h5r
      refine ⟨?_, ?_, ?_⟩
      · rw [List.length_append]
        have e2 := htake_len
        simp only [maxReviewers] at e2 hcnt hlen_old ⊢
        omega
      · rw [List.nodup_append]
        refine ⟨h5r.2.1, htake_nodup, ?_⟩
        intro x hx1 hx2
        obtain ⟨u2, hu2, huid, hne, hnass⟩ := htake_mem x hx2
        refine hnass ?_
        rw [hrevs, reviewersOf_eq_revsOfList]
        exact hx1
      · rw [List.mem_append]
        rintro (hx | hx)
        · exact h5r.2.2 hx
        · obtain ⟨u2, hu2, huid, hne, hnass⟩ := htake_mem _ hx
          exact hne hpauthor.symm
    · rw [revsOfList_pairs_other hid, List.append_nil]
      have h5r := h5 r hr hstat
      rw [reviewersOf_eq_revsOfList] at h5r
      exact h5r
  · intro r hr
    rw [hp] at hr
    exact h6 r hr

theorem revsOfList_singleton_self (prID x : String) :
    revsOfList [(prID, x)] prID = [x] := by
  simp [revsOfList]

theorem revsOfList_singleton_other {p prID : String} (h : p ≠ prID)
    (x : String) : revsOfList [(prID, x)] p = [] := by
  simp [revsOfList, Ne.symm h]

theorem length_filter_ne_add_one {a : String} :
    ∀ {l : List String}, l.Nodup → a ∈ l →
    (l.filter (fun x => !(x == a))).length + 1 = l.length := by
  intro l
  induction l with
  | nil => intro _ h; exact absurd h (by simp)
  | cons x xs ih =>
    intro hnd hmem
    simp only [List.nodup_cons] at hnd
    rcases List.mem_cons.mp hmem with rfl | hmem2
    · rw [List.filter_cons, if_neg (by simp)]
      have hself : xs.filter (fun y => !(y == a)) = xs := by
        rw [List.filter_eq_self]
        intro y hy
        simp only [Bool.not_eq_true', beq_eq_false_iff_ne]
        intro hc
        exact hnd.1 (hc ▸ hy)
      rw [hself]
      simp
    · have hxa : x ≠ a := fun hc => hnd.1 (hc ▸ hmem2)
      rw [List.filter_cons, if_pos (by simpa using hxa)]
      have := ih hnd.2 hmem2
      simp only [List.length_cons]
      omega

theorem WF_ReassignPR {s : DBState} (prID oldR : String) (rand : List Nat)
    (hwf : WF s) : WF (ReassignPR s prID oldR rand).2 := by
  rcases ReassignPR_state s prID oldR rand with hs |
    ⟨q, newR0, hq, hcand, hne, hnass, hold, hs⟩
  · rw [hs]; exact hwf
  rw [hs]
  obtain ⟨h1, h2, h3, h4, h5, h6⟩ := hwf
  obtain ⟨r0, hr0, hfields⟩ := prGet_eq_some hq
  obtain ⟨hr0mem, hr0id⟩ := prRowGet_eq_some hr0
  have hrevs : q.assignedReviewersIDs = reviewersOf s prID :=
    hfields.2.2.2.2.2.1
  have hqauthor : q.authorID = r0.authorID := hfields.2.2.1
  obtain ⟨u2, hu2, hu2id⟩ := hcand
  have hnewrev : newR0 ∉ reviewersOf s prID := hrevs ▸ hnass
  refine ⟨h1, h2, ?_, ?_, ?_, h6⟩
  · rw [List.nodup_append]
    refine ⟨List.Nodup.sublist (List.filter_sublist _) h3, by simp, ?_⟩
    intro rv hrv1 hrv2
    rw [List.mem_singleton] at hrv2
    subst hrv2
    rw [List.mem_filter] at hrv1
    exact hnewrev (mem_reviewersOf.mpr hrv1.1)
  · intro rv hmem
    rcases List.mem_append.mp hmem with hin | hin
    · rw [List.mem_filter] at hin
      obtain ⟨⟨r, hr, hrid⟩, ⟨u3, hu3, hu3id⟩⟩ := h4 rv hin.1
      exact ⟨⟨r, hr, hrid⟩, ⟨u3, hu3, hu3id⟩⟩
    · rw [List.mem_singleton] at hin
      subst hin
      exact ⟨⟨r0, hr0mem, hr0id⟩,
        ⟨u2, (getActiveByTeam_mem.mp hu2).1, hu2id⟩⟩
  · intro r hr hstat
    rw [reviewersOf_eq_revsOfList, revsOfList_append]
    by_cases hid : r.pullRequestID = prID
    · have hr_eq : r = r0 := prRow_unique h2 hr hr0mem (hid.trans hr0id.symm)
      rw [hid, revsOfList_filterOld_self, revsOfList_singleton_self]
      have h5r := h5 r hr hstat
      rw [reviewersOf_eq_revsOfList, hid] at h5r
      have holdmem : oldR ∈ revsOfList s.prReviewers prID := by
        rw [← reviewersOf_eq_revsOfList]
        exact hold
      refine ⟨?_, ?_, ?_⟩
      · rw [List.length_append]
        have := length_filter_ne_add_one h5r.2.1 holdmem
        have hlen := h5r.1
        simp only [List.length_singleton]
        omega
      · rw [List.nodup_append]
        refine ⟨List.Nodup.sublist (List.filter_sublist _) h5r.2.1,
          by simp, ?_⟩
        intro x hx1 hx2
        rw [List.mem_singleton] at hx2
        subst hx2
        rw [List.mem_filter] at hx1
        refine hnewrev ?_
        rw [reviewersOf_eq_revsOfList]
        exact hx1.1
      · rw [List.mem_append]
        rintro (hx | hx)
        · rw [List.mem_filter] at hx
          exact h5r.2.2 hx.1
        · rw [List.mem_singleton] at hx
          refine hne ?_
          rw [← hx, hqauthor, hr_eq]
    · rw [revsOfList_filterOld_other hid, revsOfList_singleton_other hid]
      rw [List.append_nil]
      have h5r := h5 r hr hstat
      rw [reviewersOf_eq_revsOfList] at h5r
      exact h5r

theorem revsOfList_nil_of_fresh {s : DBState} {prID : String}
    (h4 : ∀ rv ∈ s.prReviewers,
      (∃ r ∈ s.prs, r.pullRequestID = rv.1) ∧ (∃ u ∈ s.users, u.userID = rv.2))
    (hfresh : ∀ r ∈ s.prs, r.pullRequestID ≠ prID) :
    revsOfList s.prReviewers prID = [] := by
  rw [List.eq_nil_iff_forall_not_mem]
  intro x hx
  obtain ⟨⟨r, hr, hrid⟩, -⟩ := h4 (prID, x) (mem_revsOfList.mp hx)
  exact hfresh r hr hrid

theorem WF_CreatePR {s : DBState} (prID prName authorID : String)
    (rand : List Nat) (now : Nat) (hwf : WF s) :
    WF (CreatePR s prID prName authorID rand now).2 := by
  rcases CreatePR_state s prID prName authorID rand now with hs |
    ⟨author, reviewers, r2x, hug, hsel, htx⟩
  · rw [hs]; exact hwf
  obtain ⟨ht, hu, hp, hrv, hfresh, hver⟩ := createPRTx_ok htx
  obtain ⟨h1, h2, h3, h4, h5, h6⟩ := hwf
  have hndteam := getActiveTeammates_ids_nodup (s := s) authorID h1
  have hselspec := SelectReviewers_spec hndteam hsel
  have hselmem : ∀ x ∈ reviewers,
      ∃ u ∈ s.users, u.userID = x ∧ x ≠ authorID := by
    intro x hx
    have := SelectReviewers_mem hsel x hx
    simp only [List.mem_map] at this
    obtain ⟨u3, hu3, rfl⟩ := this
    obtain ⟨humem, hune, -⟩ := getActiveTeammates_mem hu3
    exact ⟨u3, humem, rfl, hune⟩
  refine ⟨?_, ?_, ?_, ?_, ?_, ?_⟩
  · rw [hu]; exact h1
  · rw [hp, List.map_append, List.nodup_append]
    refine ⟨h2, by simp, ?_⟩
    intro x hx
    simp only [List.mem_map] at hx
    obtain ⟨r, hr, rfl⟩ := hx
    simp only [List.map_cons, List.map_nil, List.mem_singleton]
    intro hc
    exact hfresh r hr hc
  · rw [hrv, List.nodup_append]
    refine ⟨h3, pairs_nodup hselspec.1, ?_⟩
    intro rv hrv1 hrv2
    simp only [List.mem_map] at hrv2
    obtain ⟨x, hx, rfl⟩ := hrv2
    obtain ⟨⟨r, hr, hrid⟩, -⟩ := h4 (prID, x) hrv1
    exact hfresh r hr hrid
  · intro rv hmem
    rw [hrv] at hmem
    rcases List.mem_append.mp hmem with hin | hin
    · obtain ⟨⟨r, hr, hrid⟩, ⟨u3, hu3, hu3id⟩⟩ := h4 rv hin
      exact ⟨⟨r, by rw [hp]; exact List.mem_append_left _ hr, hrid⟩,
        ⟨u3, by rw [hu]; exact hu3, hu3id⟩⟩
    · simp only [List.mem_map] at hin
      obtain ⟨x, hx, rfl⟩ := hin
      obtain ⟨u3, hu3, hu3id, -⟩ := hselmem x hx
      refine ⟨⟨PRRow.mk prID prName authorID author.teamName .opened now none,
        by rw [hp]; exact List.mem_append_right _ (by simp), rfl⟩,
        ⟨u3, by rw [hu]; exact hu3, hu3id⟩⟩
  · intro r hr hstat
    rw [hp] at hr
    rw [reviewersOf_eq_revsOfList, hrv, revsOfList_append]
    rcases List.mem_append.mp hr with hin | hin
    · have hid : r.pullRequestID ≠ prID := hfresh r hin
      rw [revsOfList_pairs_other hid, List.append_nil]
      have h5r := h5 r hin hstat
      rw [reviewersOf_eq_revsOfList] at h5r
      exact h5r
    · have hreq : r = PRRow.mk prID prName authorID author.teamName
          .opened now none := List.mem_singleton.mp hin
      subst hreq
      have hidr : (PRRow.mk prID prName authorID author.teamName
          .opened now none).pullRequestID = prID := rfl
      rw [hidr, revsOfList_pairs_self, revsOfList_nil_of_fresh h4 hfresh,
        List.nil_append]
      refine ⟨hselspec.2.1, hselspec.1, ?_⟩
      intro hmem2
      obtain ⟨-, -, -, hne⟩ := hselmem _ hmem2
      exact hne rfl
  · intro r hr
    rw [hp] at hr
    rcases List.mem_append.mp hr with hin | hin
    · exact h6 r hin
    · have hreq := List.mem_singleton.mp hin
      subst hreq
      simp

theorem WF_deleteReviewer {s : DBState} (prID rid : String) (hwf : WF s) :
    WF (deleteReviewer s prID rid) := by
  obtain ⟨h1, h2, h3, h4, h5, h6⟩ := hwf
  refine ⟨h1, h2, ?_, ?_, ?_, h6⟩
  · exact List.Nodup.sublist (List.filter_sublist _) h3
  · intro rv hmem
    have hmem2 : rv ∈ s.prReviewers.filter
        (fun rv => !(rv.1 == prID && rv.2 == rid)) := hmem
    rw [List.mem_filter] at hmem2
    exact h4 rv hmem2.1
  · intro r hr hstat
    have h5r := h5 r hr hstat
    have hsub : (reviewersOf (deleteReviewer s prID rid)
        r.pullRequestID).Sublist (reviewersOf s r.pullRequestID) :=
      revsOfList_sublist (List.filter_sublist _) _
    exact ⟨le_trans hsub.length_le h5r.1, List.Nodup.sublist hsub h5r.2.1,
      fun hc => h5r.2.2 (hsub.mem hc)⟩

theorem WF_deleteFold (prID : String) :
    ∀ (revIDs : List String) (s : DBState), WF s →
    WF (revIDs.foldl (fun acc rid => deleteReviewer acc prID rid) s) := by
  intro revIDs
  induction revIDs with
  | nil => intro s hwf; exact hwf
  | cons r rest ih =>
    intro s hwf
    simp only [List.foldl_cons]
    exact ih (deleteReviewer s prID r) (WF_deleteReviewer prID r hwf)

theorem deact_ids (l : List User) (teamName : String) :
    (l.map (fun u => if u.teamName == teamName then
      { u with isActive := false } else u)).map User.userID =
    l.map User.userID := by
  rw [List.map_map]
  refine List.map_congr_left ?_
  intro u hu
  by_cases hc : u.teamName == teamName
  · simp only [Function.comp_apply, if_pos hc]
  · simp only [Function.comp_apply, if_neg hc]

theorem WF_deactivateAll {s : DBState} (teamName : String) (hwf : WF s) :
    WF (deactivateAll s teamName) := by
  obtain ⟨h1, h2, h3, h4, h5, h6⟩ := hwf
  refine ⟨?_, h2, h3, ?_, h5, h6⟩
  · show ((s.users.map _).map User.userID).Nodup
    rw [deact_ids]
    exact h1
  · intro rv hmem
    obtain ⟨hpr, ⟨u, hu, huid⟩⟩ := h4 rv hmem
    refine ⟨hpr, ⟨(if u.teamName == teamName then
      { u with isActive := false } else u), List.mem_map_of_mem _ hu, ?_⟩⟩
    by_cases hc : u.teamName == teamName
    · rw [if_pos hc]; exact huid
    · rw [if_neg hc]; exact huid

theorem WF_deactivateLoop {teamName : String} :
    ∀ {pairs : List (String × List String)} {s s2 : DBState} {rand : List Nat},
    WF s → deactivateLoop teamName s pairs rand = .ok s2 → WF s2 := by
  intro pairs
  induction pairs with
  | nil =>
    intro s s2 rand hwf h
    rw [deactivateLoop] at h
    injection h with h
    subst h
    exact hwf
  | cons pair rest ih =>
    intro s s2 rand hwf h
    obtain ⟨prID, revIDs⟩ := pair
    rw [deactivateLoop] at h
    have hwf1 := WF_deleteFold prID revIDs s hwf
    cases hpg : prGet (revIDs.foldl (fun acc rid => deleteReviewer acc prID rid) s)
        prID with
    | none => rw [hpg] at h; exact absurd h (by simp)
    | some p =>
      rw [hpg] at h
      dsimp only at h
      by_cases hteam : p.teamName == teamName
      · rw [if_pos hteam] at h
        exact ih hwf1 h
      · rw [if_neg hteam] at h
        cases hrep : ReplenishReviewers
            (revIDs.foldl (fun acc rid => deleteReviewer acc prID rid) s) prID
            rand with
        | error e => rw [hrep] at h; exact absurd h (by simp)
        | ok pair2 =>
          rw [hrep] at h
          obtain ⟨s3, rand3⟩ := pair2
          dsimp only at h
          exact ih (WF_Replenish hwf1 hrep) h

theorem WF_DeactivateTeam {s : DBState} (teamName : String) (rand : List Nat)
    (hwf : WF s) : WF (DeactivateTeam s teamName rand).2 := by
  cases hres : (DeactivateTeam s teamName rand).1 with
  | error e =>
    rw [DeactivateTeam_error_state hres]
    exact hwf
  | ok u =>
    have hfull : DeactivateTeam s teamName rand =
        (.ok (), (DeactivateTeam s teamName rand).2) := by
      rw [← hres]
    obtain ⟨-, hloop⟩ := DeactivateTeam_ok_char hfull
    exact WF_deactivateLoop (WF_deactivateAll teamName hwf) hloop

theorem WF_init : WF initState := by
  refine ⟨?_, ?_, ?_, ?_, ?_, ?_⟩ <;> simp [initState]

theorem WF_Step {s s2 : DBState} (hwf : WF s) (h : Step s s2) : WF s2 := by
  cases h with
  | createTeam teamName members => exact WF_CreateTeam teamName members hwf
  | createPR prID prName authorID rand now =>
    exact WF_CreatePR prID prName authorID rand now hwf
  | mergePR prID now => exact WF_MergePR prID now hwf
  | reassignPR prID oldR rand => exact WF_ReassignPR prID oldR rand hwf
  | replenish prID rand s2 rand2 hrep => exact WF_Replenish hwf hrep
  | deactivateTeam teamName rand => exact WF_DeactivateTeam teamName rand hwf

theorem WF_Reachable {s : DBState} (h : Reachable s) : WF s := by
  induction h with
  | init => exact WF_init
  | step h0 hstep ih => exact WF_Step ih hstep

/-- C4: in every state reachable by the engine's operations, every OPEN
pull request carries at most 2 reviewers, with no duplicates, and never
its own author. -/
theorem C4_reviewer_set_invariant {s : DBState} (h : Reachable s) :
    ∀ r ∈ s.prs, r.status = PRStatus.opened →
      (reviewersOf s r.pullRequestID).length ≤ 2 ∧
      (reviewersOf s r.pullRequestID).Nodup ∧
      r.authorID ∉ reviewersOf s r.pullRequestID :=
  (WF_Reachable h).2.2.2.2.1

/-- Members used to build the C4 witness state. -/
def c4members : List TeamMember :=
  [{ userID := "u1", username := "n1", isActive := true },
   { userID := "u2", username := "n2", isActive := true },
   { userID := "u3", username := "n3", isActive := true }]

/-- A state reached by `CreateTeam` then `CreatePR` from the empty database. -/
def c4state : DBState :=
  (CreatePR (CreateTeam initState "A" c4members).2 "p1" "x" "u1" [] 10).2

/-- Witness for C4 at a concrete reachable state with one open PR. -/
theorem C4_reviewer_set_invariant_witness :
    (reviewersOf c4state "p1").length ≤ 2 ∧
    (reviewersOf c4state "p1").Nodup ∧
    ("u1" : String) ∉ reviewersOf c4state "p1" :=
  C4_reviewer_set_invariant
    (Reachable.step
      (Reachable.step Reachable.init (Step.createTeam initState "A" c4members))
      (Step.createPR (CreateTeam initState "A" c4members).2 "p1" "x" "u1" [] 10))
    (PRRow.mk "p1" "x" "u1" "A" .opened 10 none) (by decide) (by decide)

/-! ### Join-row tracking through DeactivateTeam -/

theorem foldl_deleteReviewer_mem (prID : String) :
    ∀ (revIDs : List String) (s : DBState) (rv : String × String),
    (rv ∈ (revIDs.foldl (fun acc rid => deleteReviewer acc prID rid)
      s).prReviewers ↔
    rv ∈ s.prReviewers ∧ ¬(rv.1 = prID ∧ rv.2 ∈ revIDs)) := by
  intro revIDs
  induction revIDs with
  | nil => intro s rv; simp
  | cons r rest ih =>
    intro s rv
    simp only [List.foldl_cons]
    rw [ih (deleteReviewer s prID r) rv]
    have hdel : rv ∈ (deleteReviewer s prID r).prReviewers ↔
        rv ∈ s.prReviewers ∧ ¬(rv.1 = prID ∧ rv.2 = r) := by
      show rv ∈ s.prReviewers.filter _ ↔ _
      rw [List.mem_filter]
      simp only [Bool.not_eq_true', Bool.and_eq_false_iff, beq_eq_false_iff_ne]
      tauto
    rw [hdel]
    simp only [List.mem_cons]
    tauto

theorem ReplenishReviewers_additions {s s2 : DBState} {prID : String}
    {rand r2 : List Nat}
    (h : ReplenishReviewers s prID rand = .ok (s2, r2)) :
    ∀ rv ∈ s2.prReviewers, rv ∈ s.prReviewers ∨
      (rv.1 = prID ∧ ∃ p2, prGet s prID = some p2 ∧
        p2.status = PRStatus.opened ∧ rv.2 ≠ p2.authorID ∧
        ∃ usr ∈ s.users, usr.userID = rv.2 ∧ usr.isActive = true ∧
          usr.teamName = p2.teamName) := by
  obtain ⟨ht, hu, hp, hcase⟩ := ReplenishReviewers_ok_char h
  rcases hcase with rfl | ⟨p, rsel, r3, hpg, hst, hcnt, hsel, hrv⟩
  · exact fun rv hm => Or.inl hm
  intro rv hm
  rw [hrv] at hm
  rcases List.mem_append.mp hm with hin | hin
  · exact Or.inl hin
  · simp only [List.mem_map] at hin
    obtain ⟨x, hx, rfl⟩ := hin
    right
    refine ⟨rfl, p, hpg, hst, ?_, ?_⟩
    · have hsub : x ∈ rsel := (List.take_sublist _ _).mem hx
      obtain ⟨u2, hu2, hu2id, hu2ne, -⟩ := SelectReassignReviewers_mem hsel x hsub
      exact hu2ne
    · have hsub : x ∈ rsel := (List.take_sublist _ _).mem hx
      obtain ⟨u2, hu2, hu2id, hu2ne, -⟩ := SelectReassignReviewers_mem hsel x hsub
      obtain ⟨hu2mem, hu2team, hu2act⟩ := getActiveByTeam_mem.mp hu2
      exact ⟨u2, hu2mem, hu2id, hu2act, hu2team⟩

theorem deactivateLoop_additions {teamName : String} :
    ∀ {pairs : List (String × List String)} {s s2 : DBState} {rand : List Nat},
    deactivateLoop teamName s pairs rand = .ok s2 →
    ∀ rv ∈ s2.prReviewers, rv ∈ s.prReviewers ∨
      ∃ row ∈ s.prs, row.pullRequestID = rv.1 ∧ row.teamName ≠ teamName ∧
        row.status = PRStatus.opened ∧ rv.2 ≠ row.authorID ∧
        ∃ usr ∈ s.users, usr.userID = rv.2 ∧ usr.isActive = true ∧
          usr.teamName = row.teamName := by
  intro pairs
  induction pairs with
  | nil =>
    intro s s2 rand h rv hm
    rw [deactivateLoop] at h
    injection h with h
    subst h
    exact Or.inl hm
  | cons pair rest ih =>
    intro s s2 rand h rv hm
    obtain ⟨prID, revIDs⟩ := pair
    rw [deactivateLoop] at h
    obtain ⟨hft, hfu, hfp, hfrv⟩ := foldl_deleteReviewer_state prID revIDs s
    cases hpg : prGet (revIDs.foldl (fun acc rid => deleteReviewer acc prID rid) s)
        prID with
    | none => rw [hpg] at h; exact absurd h (by simp)
    | some p =>
      rw [hpg] at h
      dsimp only at h
      by_cases hteam : p.teamName == teamName
      · rw [if_pos hteam] at h
        rcases ih h rv hm with hin | ⟨row, hrow, hid, hnt, hop, hna, usr, husr, hx⟩
        · exact Or.inl (hfrv rv hin)
        · exact Or.inr ⟨row, hfp ▸ hrow, hid, hnt, hop, hna,
            usr, hfu ▸ husr, hx⟩
      · rw [if_neg hteam] at h
        cases hrep : ReplenishReviewers
            (revIDs.foldl (fun acc rid => deleteReviewer acc prID rid) s) prID
            rand with
        | error e => rw [hrep] at h; exact absurd h (by simp)
        | ok pair2 =>
          rw [hrep] at h
          obtain ⟨s3, rand3⟩ := pair2
          dsimp only at h
          obtain ⟨ht3, hu3, hp3, -⟩ := ReplenishReviewers_ok_char hrep
          rcases ih h rv hm with hin3 | ⟨row, hrow, hid, hnt, hop, hna, usr, husr, hx⟩
          · rcases ReplenishReviewers_additions hrep rv hin3 with hin1 |
              ⟨hrv1, p2, hp2, hop, hna, usr, husr, huid, hact, huteam⟩
            · exact Or.inl (hfrv rv hin1)
            · have hp2p : p2 = p := by
                rw [hpg] at hp2
                injection hp2 with hp2
                exact hp2.symm
              subst hp2p
              obtain ⟨r0, hr0, hfields⟩ := prGet_eq_some hpg
              obtain ⟨hr0mem, hr0id⟩ := prRowGet_eq_some hr0
              refine Or.inr ⟨r0, hfp ▸ hr0mem, hr0id.trans hrv1.symm, ?_, ?_,
                ?_, usr, hfu ▸ husr, huid, hact, ?_⟩
              · rw [← hfields.2.2.2.1]
                simpa using hteam
              · rw [← hfields.2.2.2.2.1]
                exact hop
              · rw [← hfields.2.2.1]
                exact hna
              · rw [huteam, hfields.2.2.2.1]
          · exact Or.inr ⟨row, (hp3.trans hfp) ▸ hrow, hid, hnt, hop, hna,
              usr, (hu3.trans hfu) ▸ husr, hx⟩

theorem deactivateLoop_kills {teamName : String} :
    ∀ {pairs : List (String × List String)} {s s2 : DBState} {rand : List Nat}
    {v prID : String} {revIDs : List String},
    deactivateLoop teamName s pairs rand = .ok s2 →
    (∀ w ∈ s.users, w.userID = v → w.teamName = teamName) →
    (prID, revIDs) ∈ pairs → v ∈ revIDs →
    (prID, v) ∉ s2.prReviewers := by
  intro pairs
  induction pairs with
  | nil =>
    intro s s2 rand v prID revIDs h hteamv hpair hv
    exact absurd hpair (by simp)
  | cons pair rest ih =>
    intro s s2 rand v prID revIDs h hteamv hpair hv
    obtain ⟨prID0, revIDs0⟩ := pair
    rw [deactivateLoop] at h
    obtain ⟨hft, hfu, hfp, hfrv⟩ := foldl_deleteReviewer_state prID0 revIDs0 s
    cases hpg : prGet
        (revIDs0.foldl (fun acc rid => deleteReviewer acc prID0 rid) s)
        prID0 with
    | none => rw [hpg] at h; exact absurd h (by simp)
    | some p =>
      rw [hpg] at h
      dsimp only at h
      rcases List.mem_cons.mp hpair with hhead | hrest
      · -- the target pair is processed in this iteration
        have hprid : prID0 = prID ∧ revIDs0 = revIDs := by
          injection hhead.symm with h1 h2
          exact ⟨h1, h2⟩
        obtain ⟨rfl, rfl⟩ := hprid
        have hdel : (prID0, v) ∉
            (revIDs0.foldl (fun acc rid => deleteReviewer acc prID0 rid)
              s).prReviewers := by
          rw [foldl_deleteReviewer_mem]
          rintro ⟨-, hc⟩
          exact hc ⟨rfl, hv⟩
        by_cases hteam : p.teamName == teamName
        · rw [if_pos hteam] at h
          intro hmem
          rcases deactivateLoop_additions h _ hmem with hin |
            ⟨row, hrow, hid, hnt, hop, hna, usr, husr, huid, hact, huteam⟩
          · exact hdel hin
          · exact hnt (huteam ▸ hteamv usr (hfu ▸ husr) huid)
        · rw [if_neg hteam] at h
          cases hrep : ReplenishReviewers
              (revIDs0.foldl (fun acc rid => deleteReviewer acc prID0 rid) s)
              prID0 rand with
          | error e => rw [hrep] at h; exact absurd h (by simp)
          | ok pair2 =>
            rw [hrep] at h
            obtain ⟨s3, rand3⟩ := pair2
            dsimp only at h
            obtain ⟨ht3, hu3, hp3, -⟩ := ReplenishReviewers_ok_char hrep
            intro hmem
            rcases deactivateLoop_additions h _ hmem with hin3 |
              ⟨row, hrow, hid, hnt, hop, hna, usr, husr, huid, hact, huteam⟩
            · rcases ReplenishReviewers_additions hrep _ hin3 with hin1 |
                ⟨-, p2, hp2, -, -, usr, husr, huid, hact, huteam⟩
              · exact hdel hin1
              · have hp2p : p2 = p := by
                  rw [hpg] at hp2
                  injection hp2 with hp2
                  exact hp2.symm
                subst hp2p
                have : usr.teamName = teamName :=
                  hteamv usr (hfu ▸ husr) huid
                rw [huteam] at this
                simp [this] at hteam
            · exact hnt (huteam ▸ hteamv usr ((hu3.trans hfu) ▸ husr) huid)
      · -- the target pair is processed later
        by_cases hteam : p.teamName == teamName
        · rw [if_pos hteam] at h
          exact ih h (fun w hw => hteamv w (hfu ▸ hw)) hrest hv
        · rw [if_neg hteam] at h
          cases hrep : ReplenishReviewers
              (revIDs0.foldl (fun acc rid => deleteReviewer acc prID0 rid) s)
              prID0 rand with
          | error e => rw [hrep] at h; exact absurd h (by simp)
          | ok pair2 =>
            rw [hrep] at h
            obtain ⟨s3, rand3⟩ := pair2
            dsimp only at h
            obtain ⟨ht3, hu3, hp3, -⟩ := ReplenishReviewers_ok_char hrep
            exact ih h (fun w hw => hteamv w ((hu3.trans hfu) ▸ hw)) hrest hv

theorem userGet_eq_some {s : DBState} {u : String} {w : User}
    (h : userGet s u = some w) : w ∈ s.users ∧ w.userID = u := by
  unfold userGet at h
  have hm := List.mem_of_find?_eq_some h
  have hp := List.find?_some h
  exact ⟨hm, by simpa using hp⟩

theorem find?_userID_of_mem_nodup {u : String} {usr : User} :
    ∀ {l : List User}, (l.map User.userID).Nodup → usr ∈ l →
    usr.userID = u → l.find? (fun v => v.userID == u) = some usr := by
  intro l
  induction l with
  | nil => intro _ hmem _; exact absurd hmem (by simp)
  | cons x xs ih =>
    intro hnd hmem hid
    simp only [List.map_cons, List.nodup_cons] at hnd
    by_cases hx : x.userID == u
    · rw [List.find?_cons_of_pos (p := fun v => v.userID == u) xs hx]
      rcases List.mem_cons.mp hmem with rfl | hmem2
      · rfl
      · exfalso
        refine hnd.1 ?_
        have hin : usr.userID ∈ xs.map User.userID :=
          List.mem_map_of_mem User.userID hmem2
        rw [hid, ← beq_iff_eq.mp hx] at hin
        exact hin
    · rw [List.find?_cons_of_neg (p := fun v => v.userID == u) xs hx]
      rcases List.mem_cons.mp hmem with rfl | hmem2
      · exact absurd (by simpa using hid) (by simpa using hx)
      · exact ih hnd.2 hmem2 hid

theorem userGet_of_mem_nodup {s : DBState} {u : String} {usr : User}
    (hnd : (s.users.map User.userID).Nodup)
    (hmem : usr ∈ s.users) (hid : usr.userID = u) :
    userGet s u = some usr := by
  unfold userGet
  exact find?_userID_of_mem_nodup hnd hmem hid

theorem deactivateAll_users_inactive {s : DBState} {T : String} :
    ∀ u ∈ (deactivateAll s T).users, u.teamName = T → u.isActive = false := by
  intro u hu hteam
  unfold deactivateAll at hu
  simp only [List.mem_map] at hu
  obtain ⟨u0, hu0, rfl⟩ := hu
  by_cases hc : u0.teamName == T
  · rw [if_pos hc]
  · rw [if_neg hc] at hteam ⊢
    exact absurd (by simpa using hteam) (by simpa using hc)

theorem deactivateAll_ids_nodup {s : DBState} (T : String)
    (hnd : (s.users.map User.userID).Nodup) :
    ((deactivateAll s T).users.map User.userID).Nodup := by
  show ((s.users.map _).map User.userID).Nodup
  rw [deact_ids]
  exact hnd

theorem deactivateAll_mem_of_mem {s : DBState} {T : String} {u0 : User}
    (h : u0 ∈ s.users) :
    (if u0.teamName == T then { u0 with isActive := false } else u0) ∈
      (deactivateAll s T).users :=
  List.mem_map_of_mem _ h

theorem snapshot_complete {s1 : DBState} {T : String} {row : PRRow} {u : String}
    {w : User}
    (hrow : row ∈ s1.prs) (hopen : row.status = PRStatus.opened)
    (hpair : (row.pullRequestID, u) ∈ s1.prReviewers)
    (hw : userGet s1 u = some w) (hwteam : w.teamName = T) :
    ∃ revs, (row.pullRequestID, revs) ∈
      getOpenPRsWithReviewersFromTeam s1 T ∧ u ∈ revs := by
  unfold getOpenPRsWithReviewersFromTeam
  have humem : u ∈ (reviewersOf s1 row.pullRequestID).filter (fun uid =>
      match userGet s1 uid with
      | some u2 => u2.teamName == T
      | none => false) := by
    rw [List.mem_filter]
    refine ⟨mem_reviewersOf.mpr hpair, ?_⟩
    rw [hw]
    simpa using hwteam
  refine ⟨(reviewersOf s1 row.pullRequestID).filter (fun uid =>
      match userGet s1 uid with
      | some u2 => u2.teamName == T
      | none => false), ?_, humem⟩
  rw [List.mem_filterMap]
  refine ⟨row, hrow, ?_⟩
  rw [if_pos hopen, if_neg ?_]
  intro hc
  rw [List.isEmpty_iff] at hc
  rw [hc] at humem
  exact absurd humem (by simp)

/-! ### C1, C2, C10 -/

/-- C1: any reviewer assignment added by a successful `DeactivateTeam(T)`
(replenishment) attaches to a PR whose frozen owning team is not `T`, and
the added reviewer is an active member of that owning team who is not the
PR's author; PRs owned by `T` itself receive no replenishment. -/
theorem C1_owning_team_freezing {s s2 : DBState} {T : String}
    {rand : List Nat}
    (h : DeactivateTeam s T rand = (.ok (), s2)) :
    ∀ p u, (p, u) ∈ s2.prReviewers → (p, u) ∉ s.prReviewers →
      ∃ row ∈ s2.prs, row.pullRequestID = p ∧ row.teamName ≠ T ∧
        u ≠ row.authorID ∧
        ∃ usr ∈ s2.users, usr.userID = u ∧ usr.isActive = true ∧
          usr.teamName = row.teamName := by
  obtain ⟨hok, hloop⟩ := DeactivateTeam_ok_char h
  obtain ⟨hlt, hlu, hlp⟩ := deactivateLoop_state hloop
  intro p u hmem hnotmem
  rcases deactivateLoop_additions hloop (p, u) hmem with hin |
    ⟨row, hrow, hid, hnt, hop, hna, usr, husr, huid, hact, huteam⟩
  · exact absurd hin hnotmem
  · refine ⟨row, ?_, hid, hnt, hna, usr, ?_, huid, hact, huteam⟩
    · rw [hlp]; exact hrow
    · rw [hlu]; exact husr

theorem deactivate_cascade_core {s s2 : DBState} {T : String}
    {rand : List Nat}
    (hnd : (s.users.map User.userID).Nodup)
    (h : DeactivateTeam s T rand = (.ok (), s2)) :
    (∀ u ∈ s2.users, u.teamName = T → u.isActive = false) ∧
    (∀ row ∈ s2.prs, row.status = PRStatus.opened →
      ∀ u, (row.pullRequestID, u) ∈ s2.prReviewers →
        ∀ usr ∈ s2.users, usr.userID = u → usr.teamName ≠ T) := by
  obtain ⟨hok, hloop⟩ := DeactivateTeam_ok_char h
  obtain ⟨hlt, hlu, hlp⟩ := deactivateLoop_state hloop
  constructor
  · intro u hu hteam
    rw [hlu] at hu
    exact deactivateAll_users_inactive u hu hteam
  · intro row hrow hopen u hmem usr husr huid hteamT
    have husr1 : usr ∈ (deactivateAll s T).users := hlu ▸ husr
    have hnd1 := deactivateAll_ids_nodup (s := s) T hnd
    have h_all_T : ∀ w ∈ (deactivateAll s T).users, w.userID = u →
        w.teamName = T := by
      intro w hw hwid
      have hweq : w = usr := nodup_map_inj hnd1 w hw usr husr1
        (hwid.trans huid.symm)
      rw [hweq]
      exact hteamT
    have hin1 : (row.pullRequestID, u) ∈ (deactivateAll s T).prReviewers := by
      rcases deactivateLoop_additions hloop _ hmem with hin |
        ⟨rowX, hrowX, hidX, hntX, hopX, hnaX, usr2, husr2, huid2, hact2, huteam2⟩
      · exact hin
      · exact absurd (huteam2 ▸ (h_all_T usr2 husr2 huid2).symm) (Ne.symm hntX)
    have hrow1 : row ∈ (deactivateAll s T).prs := hlp ▸ hrow
    have hw : userGet (deactivateAll s T) u = some usr :=
      userGet_of_mem_nodup hnd1 husr1 huid
    obtain ⟨revs, hpairmem, hurevs⟩ :=
      snapshot_complete hrow1 hopen hin1 hw hteamT
    exact deactivateLoop_kills hloop h_all_T hpairmem hurevs hmem

/-- C2: after a successful `DeactivateTeam(T)`, every user of team `T` is
inactive and no OPEN pull request retains a reviewer belonging to `T`. -/
theorem C2_deactivate_cascade {s s2 : DBState} {T : String}
    {rand : List Nat}
    (hnd : (s.users.map User.userID).Nodup)
    (h : DeactivateTeam s T rand = (.ok (), s2)) :
    (∀ u ∈ s2.users, u.teamName = T → u.isActive = false) ∧
    (∀ row ∈ s2.prs, row.status = PRStatus.opened →
      ∀ u, (row.pullRequestID, u) ∈ s2.prReviewers →
        ∀ usr ∈ s2.users, usr.userID = u → usr.teamName ≠ T) :=
  deactivate_cascade_core hnd h

/-- C10 (implicit): `DeactivateTeam` is idempotent — immediately repeating a
successful `DeactivateTeam(T)` succeeds and leaves the state unchanged. -/
theorem C10_deactivateTeam_idempotent {s s2 : DBState} {T : String}
    {rand rand2 : List Nat}
    (hnd : (s.users.map User.userID).Nodup)
    (h : DeactivateTeam s T rand = (.ok (), s2)) :
    DeactivateTeam s2 T rand2 = (.ok (), s2) := by
  obtain ⟨hok, hloop⟩ := DeactivateTeam_ok_char h
  obtain ⟨hlt, hlu, hlp⟩ := deactivateLoop_state hloop
  obtain ⟨hinact, hnorev⟩ := deactivate_cascade_core hnd h
  have hcomp : ((fun u : User => u.teamName == T) ∘ (fun u =>
      if u.teamName == T then { u with isActive := false } else u)) =
      fun u : User => u.teamName == T := by
    funext u
    by_cases hc : u.teamName == T
    · simp [Function.comp, hc]
    · simp [Function.comp, hc]
  have husers_any : s2.users.any (fun u => u.teamName == T) =
      s.users.any (fun u => u.teamName == T) := by
    rw [hlu]
    show (s.users.map _).any _ = _
    rw [List.any_map, hcomp]
  have hteams : s2.teams = s.teams := hlt
  have hok2 : teamGetOk s2 T = true := by
    unfold teamGetOk teamExistsQ at hok ⊢
    rw [husers_any, hteams]
    exact hok
  have hdeact : deactivateAll s2 T = s2 := by
    unfold deactivateAll
    have hmapid : s2.users.map (fun u =>
        if u.teamName == T then { u with isActive := false } else u) =
        s2.users := by
      refine (List.map_congr_left ?_).trans (List.map_id _)
      intro u hu
      by_cases hc : u.teamName == T
      · rw [if_pos hc]
        have hin : u.isActive = false := hinact u hu (by simpa using hc)
        cases u with
        | mk a b c d =>
          simp only at hin
          rw [hin]
          rfl
      · rw [if_neg hc]
        rfl
    rw [hmapid]
  have hsnap : getOpenPRsWithReviewersFromTeam s2 T = [] := by
    unfold getOpenPRsWithReviewersFromTeam
    rw [List.filterMap_eq_nil]
    intro row hrow
    by_cases hopen : row.status = PRStatus.opened
    · rw [if_pos hopen]
      have hrevs : (reviewersOf s2 row.pullRequestID).filter (fun uid =>
          match userGet s2 uid with
          | some u2 => u2.teamName == T
          | none => false) = [] := by
        rw [List.filter_eq_nil]
        intro uid huid
        cases hug : userGet s2 uid with
        | none => simp
        | some w =>
          obtain ⟨hwmem, hwid⟩ := userGet_eq_some hug
          have := hnorev row hrow hopen uid (mem_reviewersOf.mp huid)
            w hwmem hwid
          simpa using this
      rw [hrevs]
      simp
    · rw [if_neg hopen]
  rw [DeactivateTeam_eq s2 T rand2 hok2, hdeact, hsnap]
  rfl

/-- Witness scenario: PR `p2` is owned by team B while its reviewer `a1`
belongs to team A, which gets deactivated. -/
def c1state : DBState :=
  { teams := ["A", "B"],
    users := [{ userID := "a1", username := "na", teamName := "A", isActive := true },
              { userID := "b0", username := "nb0", teamName := "B", isActive := true },
              { userID := "b1", username := "nb1", teamName := "B", isActive := true }],
    prs := [{ pullRequestID := "p2", pullRequestName := "y", authorID := "b0",
              teamName := "B", status := .opened, createdAt := 3, mergedAt := none }],
    prReviewers := [("p2", "a1")] }

/-- The state after `DeactivateTeam(A)` on `c1state`: `a1` inactive, the
`A`-reviewer removed from `p2`, replenished with `b1` from owning team B. -/
def c1state2 : DBState :=
  { teams := ["A", "B"],
    users := [{ userID := "a1", username := "na", teamName := "A", isActive := false },
              { userID := "b0", username := "nb0", teamName := "B", isActive := true },
              { userID := "b1", username := "nb1", teamName := "B", isActive := true }],
    prs := [{ pullRequestID := "p2", pullRequestName := "y", authorID := "b0",
              teamName := "B", status := .opened, createdAt := 3, mergedAt := none }],
    prReviewers := [("p2", "b1")] }

/-- Witness for C1: the reviewer added while deactivating team A is an
active member of `p2`'s owning team B and not its author. -/
theorem C1_owning_team_freezing_witness :
    ∃ row ∈ c1state2.prs, row.pullRequestID = "p2" ∧ row.teamName ≠ "A" ∧
      ("b1" : String) ≠ row.authorID ∧
      ∃ usr ∈ c1state2.users, usr.userID = "b1" ∧ usr.isActive = true ∧
        usr.teamName = row.teamName :=
  @C1_owning_team_freezing c1state c1state2 "A" [] rfl
    "p2" "b1" (by decide) (by decide)

/-- Witness for C2 on the same scenario. -/
theorem C2_deactivate_cascade_witness :
    (∀ u ∈ c1state2.users, u.teamName = "A" → u.isActive = false) ∧
    (∀ row ∈ c1state2.prs, row.status = PRStatus.opened →
      ∀ u, (row.pullRequestID, u) ∈ c1state2.prReviewers →
        ∀ usr ∈ c1state2.users, usr.userID = u → usr.teamName ≠ "A") :=
  @C2_deactivate_cascade c1state c1state2 "A" [] (by decide) rfl

/-- Witness for C10: deactivating team A a second time is a no-op. -/
theorem C10_deactivateTeam_idempotent_witness :
    DeactivateTeam c1state2 "A" [5] = (.ok (), c1state2) :=
  @C10_deactivateTeam_idempotent c1state c1state2 "A" [] [5] (by decide) rfl

end PRReview
